import Mathlib

/-!
Verification of the identity / versioning / synchronization engine of the
neis-mate note-keeping application.

The definitions below are a shallow embedding of the TypeScript source:
  * `src/lib/memo-utils.ts`   — identity & title derivation, version lineage
  * `src/store/index.ts`      — the zustand store (addMemo, deleteMemo,
                                loadMemosFromDrive)
  * `src/lib/google-drive.ts` — bulk load (loadMemos) with its static
                                isLoading / hasLoaded flags
  * `src/components/mode-change-dialog.tsx` — mode conversion

Impure inputs of the source (Date.now, Math.random ids, the Google Drive
network, getYears()/getDefaultYear() from year-utils.ts which is not part
of the sources at hand) are passed as explicit parameters.  JavaScript
number-to-string interpolation is modelled by `jsNatToString`, and the
JavaScript `||` defaulting on possibly-undefined fields by `jsOr`-style
helpers (the empty string and 0 are falsy).
-/

/-- JavaScript's falsy-defaulting `a || d` for an optional string field
(`undefined` and `""` are falsy). -/
def jsOr (o : Option String) (d : String) : String :=
  match o with
  | some s => if s = "" then d else s
  | none => d

/-- JavaScript's `a || b` on two optional strings. -/
def jsOrS (a b : Option String) : Option String :=
  match a with
  | some s => if s = "" then b else some s
  | none => b

/-- JavaScript's `a || b` on two optional numbers (`0` is falsy). -/
def jsOrN (a b : Option Nat) : Option Nat :=
  match a with
  | some n => if n = 0 then b else some n
  | none => b

/-- JavaScript renders an `undefined` template argument as `"undefined"`. -/
def showOptString : Option String → String
  | some s => s
  | none => "undefined"

/-- Truthiness of an optional string (`undefined` and `""` are falsy). -/
def jsTruthyS : Option String → Bool
  | some s => s != ""
  | none => false

/-- Truthiness of an optional number (`undefined` and `0` are falsy). -/
def jsTruthyN : Option Nat → Bool
  | some n => n != 0
  | none => false

/-- Decimal digit list of `n` produced most-significant first; `fuel`
dominates the number of divisions (`fuel ≥ n` suffices). -/
def jsDigitsAux : Nat → Nat → List Char
  | 0, _ => []
  | fuel + 1, n => if n = 0 then [] else jsDigitsAux fuel (n / 10) ++ [Nat.digitChar (n % 10)]

/-- JavaScript template interpolation of a natural number (`${n}`). -/
def jsNatToString (n : Nat) : String :=
  if n = 0 then "0" else String.mk (jsDigitsAux n n)

/-- Decode a decimal digit string back to the number; left inverse of
`jsDigitsAux`. -/
def decodeDigits (l : List Char) : Nat :=
  l.foldl (fun acc c => acc * 10 + (c.toNat - '0'.toNat)) 0

/-! ## Data model

The TypeScript `Memo` is a discriminated union `GeneralMemo | StudentMemo
| TeacherMemo` over `mode`; the embedding flattens it into one structure
whose fields are read only under the corresponding mode.  The Korean mode
literals of the source ("일반" freeform / general, "학생" cohort /
student, "교사" roster / teacher) become constructors. -/

inductive UserMode where
  | general   -- "일반"
  | student   -- "학생"
  | teacher   -- "교사"
deriving DecidableEq, Repr

structure Memo where
  id : String
  mode : UserMode
  title : String := ""              -- GeneralMemo
  folderId : Option String := none  -- GeneralMemo
  grade : String := ""              -- StudentMemo / TeacherMemo
  subject : String := ""            -- StudentMemo / TeacherMemo
  year : Nat := 0                   -- TeacherMemo
  student : String := ""            -- TeacherMemo
  internalTitle : String := ""      -- StudentMemo / TeacherMemo (derived)
  displayTitle : String := ""       -- StudentMemo / TeacherMemo (derived)
  content : String := ""
  version : Nat := 1
  createdAt : Nat := 0
  modifiedAt : Nat := 0
  viewedAt : Nat := 0
deriving DecidableEq, Repr

/-! ## memo-utils.ts — Identity & Title Deriver, Version Lineage Manager -/

/-- The regex replace in `getMemoBaseIdentifier`: strip one trailing `-N`
suffix (a dash followed by one or more decimal digits at the end). -/
def replaceDashNumberSuffix (s : String) : String :=
  let rcs := s.data.reverse
  let ds := rcs.takeWhile (fun c => c.isDigit)
  if ds.isEmpty then s
  else
    match rcs.drop ds.length with
    | '-' :: rest => String.mk rest.reverse
    | _ => s

/-- `getMemoBaseIdentifier` of memo-utils.ts. -/
def getMemoBaseIdentifier (memo : Memo) : String :=
  match memo.mode with
  | .general => replaceDashNumberSuffix memo.title
  | .student => memo.grade ++ "-" ++ memo.subject
  | .teacher =>
      jsNatToString memo.year ++ "-" ++ memo.grade ++ "-" ++ memo.subject ++ "-" ++ memo.student

/-- The filter predicate of `getRelatedMemos`: same mode and same identity
group key. -/
def relatedTo (targetMemo memo : Memo) : Bool :=
  memo.mode == targetMemo.mode &&
    match memo.mode with
    | .general => getMemoBaseIdentifier memo == getMemoBaseIdentifier targetMemo
    | .student => memo.grade == targetMemo.grade && memo.subject == targetMemo.subject
    | .teacher =>
        memo.year == targetMemo.year && memo.grade == targetMemo.grade &&
          memo.subject == targetMemo.subject && memo.student == targetMemo.student

/-- `getRelatedMemos` of memo-utils.ts. -/
def getRelatedMemos (targetMemo : Memo) (allMemos : List Memo) : List Memo :=
  allMemos.filter (relatedTo targetMemo)

/-- The `for (let i = 1; i <= usedVersions.length + 1; i++)` search of
`getNextAvailableVersion`; `fuel` is the number of iterations left. -/
def versionLoop (used : List Nat) (i : Nat) : Nat → Option Nat
  | 0 => none
  | fuel + 1 => if i ∈ used then versionLoop used (i + 1) fuel else some i

/-- `getNextAvailableVersion` of memo-utils.ts. -/
def getNextAvailableVersion (targetMemo : Memo) (allMemos : List Memo) : Nat :=
  let usedVersions :=
    List.insertionSort (fun a b => a ≤ b)
      ((getRelatedMemos targetMemo allMemos).map (fun m => m.version))
  match versionLoop usedVersions 1 (usedVersions.length + 1) with
  | some i => i
  | none => usedVersions.foldl max 0 + 1   -- Math.max(...usedVersions, 0) + 1

/-- The options record taken by `createInternalTitle` / `createDisplayTitle`;
absent fields are `undefined`. -/
structure TitleOptions where
  title : Option String := none
  grade : Option String := none
  subject : Option String := none
  year : Option Nat := none
  student : Option String := none
  version : Option Nat := none

/-- `createInternalTitle` of memo-utils.ts (the destructuring default
`version = 1` applies only to `undefined`). -/
def createInternalTitle (mode : UserMode) (options : TitleOptions) : String :=
  let version := options.version.getD 1
  match mode with
  | .general => jsOr options.title ""
  | .student =>
      showOptString options.grade ++ "-" ++ showOptString options.subject ++ "-" ++
        jsNatToString version
  | .teacher =>
      (match options.year with | some y => jsNatToString y | none => "undefined") ++ "-" ++
        showOptString options.grade ++ "-" ++ showOptString options.subject ++ "-" ++
        showOptString options.student ++ "-" ++ jsNatToString version

/-- `createDisplayTitle` of memo-utils.ts. -/
def createDisplayTitle (mode : UserMode) (options : TitleOptions) : String :=
  let version := options.version.getD 1
  match mode with
  | .general => jsOr options.title ""
  | .student =>
      if version > 1 then showOptString options.subject ++ "-" ++ jsNatToString version
      else jsOr options.subject ""
  | .teacher => jsOr options.student ""

/-- The per-memo update performed inside `reorderVersionNumbers`' forEach
when a related memo's version changes. -/
def renumberMemo (memo : Memo) (newVersion : Nat) : Memo :=
  match memo.mode with
  | .student =>
      { memo with
        version := newVersion
        internalTitle := createInternalTitle .student
          { grade := some memo.grade, subject := some memo.subject, version := some newVersion }
        displayTitle := createDisplayTitle .student
          { subject := some memo.subject, version := some newVersion } }
  | .teacher =>
      { memo with
        version := newVersion
        internalTitle := createInternalTitle .teacher
          { year := some memo.year, grade := some memo.grade, subject := some memo.subject,
            student := some memo.student, version := some newVersion } }
  | .general =>
      let baseTitle := getMemoBaseIdentifier memo
      { memo with
        version := newVersion
        title := if newVersion = 1 then baseTitle else baseTitle ++ "-" ++ jsNatToString newVersion }

/-- One iteration of `reorderVersionNumbers`' forEach body: `idx` is the
zero-based position in the sorted related list. -/
def reorderStep (acc : List Memo) (idx : Nat) (memo : Memo) : List Memo :=
  let newVersion := idx + 1
  if memo.version = newVersion then acc
  else
    match acc.findIdx? (fun m => m.id == memo.id) with
    | some memoIndex => acc.set memoIndex (renumberMemo memo newVersion)
    | none => acc

/-- The forEach of `reorderVersionNumbers` with its running index. -/
def reorderLoop : List Memo → Nat → List Memo → List Memo
  | [], _, acc => acc
  | memo :: rest, idx, acc => reorderLoop rest (idx + 1) (reorderStep acc idx memo)

/-- The sorted related list built at the top of `reorderVersionNumbers`
(filter to the deleted memo's group, drop the deleted memo itself, sort by
version ascending; JavaScript `sort` is a stable ascending sort, modelled
by the stable `insertionSort`). -/
def sortedRelated (deletedMemo : Memo) (allMemos : List Memo) : List Memo :=
  List.insertionSort (fun a b => a.version ≤ b.version)
    ((getRelatedMemos deletedMemo allMemos).filter (fun m => m.id != deletedMemo.id))

/-- `reorderVersionNumbers` of memo-utils.ts. -/
def reorderVersionNumbers (deletedMemo : Memo) (allMemos : List Memo) : List Memo :=
  reorderLoop (sortedRelated deletedMemo allMemos) 0 allMemos

/-- The options record of `createNewMemo`. -/
structure CreateMemoOptions where
  title : Option String := none
  grade : Option String := none
  subject : Option String := none
  year : Option Nat := none
  student : Option String := none
  folderId : Option String := none

/-- View of `CreateMemoOptions` as the options record passed through to
`createInternalTitle` / `createDisplayTitle` (no `version` field). -/
def CreateMemoOptions.toTitleOptions (o : CreateMemoOptions) : TitleOptions :=
  { title := o.title, grade := o.grade, subject := o.subject, year := o.year,
    student := o.student }

/-- `createNewMemo` of memo-utils.ts.  `newId` stands for `generateMemoId()`,
`now` for `new Date()` and `defaultYear` for `getDefaultYear()` (year-utils.ts
is not among the sources; the value is irrelevant here and passed in).
Note `version: 1` is assigned unconditionally in `baseProps`. -/
def createNewMemo (mode : UserMode) (content : String) (options : CreateMemoOptions)
    (newId : String) (now : Nat) (defaultYear : Nat) : Memo :=
  match mode with
  | .general =>
      { id := newId, mode := .general, content := content, version := 1,
        createdAt := now, modifiedAt := now, viewedAt := now,
        title := jsOr options.title "", folderId := options.folderId }
  | .student =>
      { id := newId, mode := .student, content := content, version := 1,
        createdAt := now, modifiedAt := now, viewedAt := now,
        grade := jsOr options.grade "중1", subject := jsOr options.subject "",
        internalTitle := createInternalTitle .student options.toTitleOptions,
        displayTitle := createDisplayTitle .student options.toTitleOptions }
  | .teacher =>
      { id := newId, mode := .teacher, content := content, version := 1,
        createdAt := now, modifiedAt := now, viewedAt := now,
        year := jsOrN options.year (some defaultYear) |>.getD 0,
        grade := jsOr options.grade "중1", subject := jsOr options.subject "",
        student := jsOr options.student "",
        internalTitle := createInternalTitle .teacher options.toTitleOptions,
        displayTitle := createDisplayTitle .teacher options.toTitleOptions }

/-! ## store/index.ts — the Synchronization Orchestrator's local state -/

/-- The candidate title `` `${memo.title} (${counter})` `` tried by
`addMemo`'s uniqueness loop. -/
def makeTitleCandidate (title : String) (counter : Nat) : String :=
  title ++ " (" ++ jsNatToString counter ++ ")"

/-- The `while (state.memos.some(...))` loop of `addMemo`; `fuel` bounds the
iterations (`memos.length + 1` always suffices, see
`addMemoTitleLoop_found`). -/
def addMemoTitleLoop (memos : List Memo) (title : String) : Nat → Nat → String
  | counter, 0 => makeTitleCandidate title counter
  | counter, fuel + 1 =>
      let newTitle := makeTitleCandidate title counter
      if memos.any (fun m => m.mode == .general && m.title == newTitle) then
        addMemoTitleLoop memos title (counter + 1) fuel
      else newTitle

/-- `addMemo` of store/index.ts (local-state part; the Google Drive save is
fire-and-forget and does not touch the store). -/
def addMemo (memos : List Memo) (memo : Memo) : List Memo :=
  let memo :=
    if memo.mode == .general &&
        memos.any (fun m => m.mode == .general && m.title == memo.title && m.id != memo.id) then
      { memo with title := addMemoTitleLoop memos memo.title 2 (memos.length + 1) }
    else memo
  memos ++ [memo]

/-- `deleteMemo` of store/index.ts (local-state part): remove the memo, then
renumber its identity group. -/
def deleteMemo (memos : List Memo) (id : String) : List Memo :=
  match memos.find? (fun m => m.id == id) with
  | none => memos
  | some memoToDelete =>
      let memosAfterDeletion := memos.filter (fun m => m.id != id)
      reorderVersionNumbers memoToDelete memosAfterDeletion

/-! ## google-drive.ts — bulk load with its static loading flags -/

/-- The static `isLoading` / `hasLoaded` flags of `GoogleDriveService`.
`syncState` of the design maps to: not-started = both false, loading =
`isLoading`, loaded = `hasLoaded`. -/
structure SyncFlags where
  isLoading : Bool
  hasLoaded : Bool
deriving DecidableEq, Repr

/-- One entry of `processedFiles` in `loadMemos`: the parse outcome of one
remote blob.  `memo = none` models `success: false` (the content failed to
parse); a parsed object lacking a truthy `id` is modelled by `id = ""`. -/
structure ProcessedFile where
  memo : Option Memo
  fileName : String := ""
  folderName : String := ""
deriving DecidableEq, Repr

/-- The dedup-by-id loop of `loadMemos`: `seen` is `seenMemoIds`, `memos`
the accumulated result; first occurrence of an id wins, later ones are
logged and dropped, parse failures are skipped. -/
def dedupMemos : List ProcessedFile → List String → List Memo → List Memo
  | [], _, memos => memos
  | f :: rest, seen, memos =>
      match f.memo with
      | some m =>
          if m.id ≠ "" then
            if m.id ∈ seen then dedupMemos rest seen memos
            else dedupMemos rest (seen ++ [m.id]) (memos ++ [m])
          else dedupMemos rest seen memos
      | none => dedupMemos rest seen memos

/-- `GoogleDriveService.loadMemos`, start to completion.  `authenticated`
is `instance.isAuthenticated()`; `enumeration` is the outcome of the folder
and file enumeration: `some files` when it completes (possibly with
per-file parse failures inside), `none` when it throws a hard error, which
lands in the catch block.  The `finally` block always clears `isLoading`;
`hasLoaded` is set only after a successful enumeration. -/
def loadMemos (flags : SyncFlags) (authenticated : Bool)
    (enumeration : Option (List ProcessedFile)) : List Memo × SyncFlags :=
  if flags.isLoading then ([], flags)
  else if flags.hasLoaded then ([], flags)
  else if !authenticated then ([], { isLoading := false, hasLoaded := flags.hasLoaded })
  else
    match enumeration with
    | some processedFiles =>
        (dedupMemos processedFiles [] [], { isLoading := false, hasLoaded := true })
    | none => ([], { isLoading := false, hasLoaded := flags.hasLoaded })

/-- The first parseable blob (in enumeration order) embedding id `i`. -/
def firstAdmitted (files : List ProcessedFile) (i : String) : Option Memo :=
  files.findSome? (fun f =>
    match f.memo with
    | some m => if m.id = i then some m else none
    | none => none)

/-- `loadMemosFromDrive` of store/index.ts, after the awaited
`GoogleDriveService.loadMemos` resolved to `memosFromDrive`; returns the
new `(memos, googleDriveLoaded)` pair of the store. -/
def loadMemosFromDrive (memos : List Memo) (googleDriveLoaded : Bool)
    (memosFromDrive : List Memo) : List Memo × Bool :=
  if memosFromDrive.length > 0 then (memosFromDrive, true)
  else if !googleDriveLoaded then (memos, true)
  else (memos, googleDriveLoaded)

/-! ## mode-change-dialog.tsx — organizing-scheme conversion -/

/-- JavaScript `title.split("-")` (split on every dash), implemented by
structural recursion over the character list. -/
def jsSplitAux : List Char → List Char → List (List Char)
  | [], cur => [cur.reverse]
  | c :: rest, cur =>
      if c = '-' then cur.reverse :: jsSplitAux rest [] else jsSplitAux rest (c :: cur)

def jsSplitDash (s : String) : List String := (jsSplitAux s.data []).map String.mk

/-- JavaScript `s.trim()`: drop whitespace from both ends. -/
def jsTrim (s : String) : String :=
  String.mk (((s.data.dropWhile Char.isWhitespace).reverse.dropWhile Char.isWhitespace).reverse)

/-- The `GRADES` constant of mode-change-dialog.tsx. -/
def GRADES : List String :=
  ["초1", "초2", "초3", "초4", "초5", "초6", "중1", "중2", "중3", "고1", "고2", "고3"]

/-- JavaScript `parseInt` on a year segment: the longest leading run of
decimal digits, `NaN` (here `none`) when there is none. -/
def parseIntJS (s : String) : Option Nat :=
  let ds := s.data.takeWhile (fun c => c.isDigit)
  if ds.isEmpty then none else some (decodeDigits ds)

/-- Result record of `parseTitle` (fields absent for the other mode are
`undefined`). -/
structure ParsedTitle where
  year : Option Nat := none
  grade : Option String := none
  subject : Option String := none
  student : Option String := none
deriving DecidableEq, Repr

/-- `parseTitle` of mode-change-dialog.tsx.  `years` stands for the `YEARS`
constant (`getYears()`, from year-utils.ts which is not among the sources). -/
def parseTitle (title : String) (targetMode : UserMode) (years : List Nat) :
    Option ParsedTitle :=
  let parts := jsSplitDash title
  if targetMode = .teacher ∧ parts.length ≥ 4 then
    match parts with
    | yearStr :: grade :: subject :: student :: _ =>
        match parseIntJS yearStr with
        | some year =>
            if year ∈ years ∧ grade ∈ GRADES then
              some { year := some year, grade := some grade, subject := some subject,
                     student := some student }
            else none
        | none => none
    | _ => none
  else if targetMode = .student ∧ parts.length ≥ 2 then
    match parts with
    | grade :: subject :: _ =>
        if grade ∈ GRADES then some { grade := some grade, subject := some subject } else none
    | _ => none
  else none

/-- The `preservedAttributes` slice of the store used as fallback data. -/
structure PreservedAttributes where
  year : Option Nat := none
  grade : Option String := none
  subject : Option String := none
  student : Option String := none
  title : Option String := none
deriving DecidableEq, Repr

/-- One row of the dialog's `ModeChangeData`. -/
structure ModeChangeData where
  memoId : String
  currentTitle : String
  content : String
  year : Option Nat := none
  grade : Option String := none
  subject : Option String := none
  student : Option String := none
  title : Option String := none
deriving DecidableEq, Repr

/-- The per-memo data row built inside `checkAutoConvertPossible` (parse the
current internal name, fall back to preserved attributes / defaults). -/
def buildModeChangeData (toMode : UserMode) (preserved : PreservedAttributes)
    (years : List Nat) (defaultYear : Nat) (memo : Memo) : ModeChangeData :=
  let currentTitle := if memo.mode = .general then memo.title else memo.internalTitle
  let parsedData := parseTitle currentTitle toMode years
  { memoId := memo.id
    currentTitle := currentTitle
    content := memo.content
    year := jsOrN preserved.year
      (if toMode = .teacher then jsOrN (parsedData.bind (fun p => p.year)) (some defaultYear)
       else none)
    grade := jsOrS preserved.grade
      (if toMode = .student ∨ toMode = .teacher then
        jsOrS (parsedData.bind (fun p => p.grade)) (some "중1")
       else none)
    subject := jsOrS preserved.subject
      (if toMode = .student ∨ toMode = .teacher then
        jsOrS (parsedData.bind (fun p => p.subject)) (some "")
       else none)
    student := jsOrS preserved.student
      (if toMode = .teacher then jsOrS (parsedData.bind (fun p => p.student)) (some "")
       else none)
    title := jsOrS preserved.title (if toMode = .general then some currentTitle else none) }

/-- The per-item test of `canAutoConvert` (identical to `validateData`). -/
def modeChangeItemValid (toMode : UserMode) (item : ModeChangeData) : Bool :=
  match toMode with
  | .general => jsTruthyS item.title && (jsTrim (jsOr item.title "")).length > 0
  | .student =>
      jsTruthyS item.grade && jsTruthyS item.subject &&
        (jsTrim (jsOr item.subject "")).length > 0
  | .teacher =>
      jsTruthyN item.year && jsTruthyS item.grade && jsTruthyS item.subject &&
        (jsTrim (jsOr item.subject "")).length > 0 && jsTruthyS item.student &&
        (jsTrim (jsOr item.student "")).length > 0

/-- `checkAutoConvertPossible` of mode-change-dialog.tsx: the data rows and
the `canAutoConvert` flag. -/
def checkAutoConvertPossible (memos : List Memo) (toMode : UserMode)
    (preserved : PreservedAttributes) (years : List Nat) (defaultYear : Nat) :
    List ModeChangeData × Bool :=
  let data := memos.map (buildModeChangeData toMode preserved years defaultYear)
  (data, data.all (modeChangeItemValid toMode))

/-- The conversion of one memo inside `performModeChange` when a data row
with its id exists (`baseProps` keeps id/content/createdAt/viewedAt/version
and stamps `modifiedAt`). -/
def convertMemo (toMode : UserMode) (now : Nat) (memo : Memo) (memoData : ModeChangeData) :
    Memo :=
  match toMode with
  | .general =>
      { id := memo.id, mode := .general, content := memo.content, createdAt := memo.createdAt,
        modifiedAt := now, viewedAt := memo.viewedAt, version := memo.version,
        title := jsOr memoData.title memoData.currentTitle }
  | .student =>
      { id := memo.id, mode := .student, content := memo.content, createdAt := memo.createdAt,
        modifiedAt := now, viewedAt := memo.viewedAt, version := memo.version,
        grade := showOptString memoData.grade, subject := showOptString memoData.subject,
        internalTitle := showOptString memoData.grade ++ "-" ++ showOptString memoData.subject ++
          "-" ++ jsNatToString memo.version,
        displayTitle :=
          if memo.version > 1 then
            showOptString memoData.subject ++ "-" ++ jsNatToString memo.version
          else showOptString memoData.subject }
  | .teacher =>
      { id := memo.id, mode := .teacher, content := memo.content, createdAt := memo.createdAt,
        modifiedAt := now, viewedAt := memo.viewedAt, version := memo.version,
        year := (memoData.year).getD 0, grade := showOptString memoData.grade,
        subject := showOptString memoData.subject, student := showOptString memoData.student,
        internalTitle :=
          (match memoData.year with | some y => jsNatToString y | none => "undefined") ++ "-" ++
            showOptString memoData.grade ++ "-" ++ showOptString memoData.subject ++ "-" ++
            showOptString memoData.student ++ "-" ++ jsNatToString memo.version,
        displayTitle := showOptString memoData.student }

/-- `performModeChange` of mode-change-dialog.tsx (local-state part): map
every memo through its data row, leave memos without a row untouched. -/
def performModeChange (memos : List Memo) (data : List ModeChangeData) (toMode : UserMode)
    (now : Nat) : List Memo :=
  memos.map (fun memo =>
    match data.find? (fun d => d.memoId == memo.id) with
    | none => memo
    | some memoData => convertMemo toMode now memo memoData)

/-- The auto-convert path of the dialog's open effect: when every row passes
`canAutoConvert` the whole batch is converted (and the mode preference is
persisted — the returned flag); otherwise nothing is modified and the
dialog asks the user for per-item values. -/
def modeChangeAutoEffect (memos : List Memo) (toMode : UserMode)
    (preserved : PreservedAttributes) (years : List Nat) (defaultYear : Nat) (now : Nat) :
    List Memo × Bool :=
  let r := checkAutoConvertPossible memos toMode preserved years defaultYear
  if r.2 then (performModeChange memos r.1 toMode now, true) else (memos, false)

/-- The target scheme's field constraints on a converted memo (the fields
checked by `canAutoConvert` / `validateData`, read off the resulting item). -/
def satisfiesModeConstraints (toMode : UserMode) (m : Memo) : Prop :=
  match toMode with
  | .general => m.mode = .general ∧ m.title ≠ "" ∧ (jsTrim m.title).length > 0
  | .student =>
      m.mode = .student ∧ m.grade ≠ "" ∧ m.subject ≠ "" ∧ (jsTrim m.subject).length > 0
  | .teacher =>
      m.mode = .teacher ∧ m.year ≠ 0 ∧ m.grade ≠ "" ∧ m.subject ≠ "" ∧
        (jsTrim m.subject).length > 0 ∧ m.student ≠ "" ∧ (jsTrim m.student).length > 0

instance (toMode : UserMode) (m : Memo) : Decidable (satisfiesModeConstraints toMode m) := by
  cases toMode <;> · unfold satisfiesModeConstraints; infer_instance

/-! ## Specification-side helper definitions -/

/-- Pointwise description of what `reorderLoop rel start` does to one entry
of the memo list (assuming pairwise distinct ids): the first memo of `rel`
sharing the entry's id determines the entry's new version `start + j + 1`.
`reorderLoop_eq_map` proves the correspondence. -/
def relAssign : List Memo → Nat → Memo → Memo
  | [], _, m => m
  | r :: rest, start, m =>
      if r.id == m.id then
        (if r.version = start + 1 then m else renumberMemo r (start + 1))
      else relAssign rest (start + 1) m

/-- Ids of the sorted related list of `reorderVersionNumbers`. -/
def sortedRelatedIds (deletedMemo : Memo) (allMemos : List Memo) : List String :=
  (sortedRelated deletedMemo allMemos).map (fun m => m.id)

/-- A concrete cohort (학생) memo used by witnesses: version `v` of the
group (중1, 수학). -/
def wStudentMemo (i : String) (v : Nat) : Memo :=
  { id := i, mode := .student, grade := "중1", subject := "수학",
    internalTitle := "중1-수학-" ++ jsNatToString v,
    displayTitle := if v > 1 then "수학-" ++ jsNatToString v else "수학",
    version := v }

/-- A concrete freeform (일반) memo used by witnesses. -/
def wGeneralMemo (i : String) (t : String) (v : Nat) : Memo :=
  { id := i, mode := .general, title := t, version := v }

/-- A concrete roster (교사) memo used by witnesses: version `v` of the
group (2024, 고1, 수학, 이학생). -/
def wTeacherMemo (i : String) (v : Nat) : Memo :=
  { id := i, mode := .teacher, year := 2024, grade := "고1", subject := "수학",
    student := "이학생",
    internalTitle := jsNatToString 2024 ++ "-" ++ "고1" ++ "-" ++ "수학" ++ "-" ++ "이학생" ++
      "-" ++ jsNatToString v,
    displayTitle := "이학생", version := v }

/-! ## Helper lemmas: decimal rendering -/

theorem decodeDigits_append_digit (l : List Char) (c : Char) :
    decodeDigits (l ++ [c]) = decodeDigits l * 10 + (c.toNat - '0'.toNat) := by
  simp [decodeDigits, List.foldl_append]

theorem digitChar_decode (m : Nat) (h : m < 10) :
    (Nat.digitChar m).toNat - '0'.toNat = m := by
  interval_cases m <;> decide

theorem decodeDigits_jsDigitsAux : ∀ (fuel n : Nat), n ≤ fuel →
    decodeDigits (jsDigitsAux fuel n) = n := by
  intro fuel
  induction fuel with
  | zero => intro n hn; interval_cases n; simp [jsDigitsAux, decodeDigits]
  | succ fuel ih =>
    intro n hn
    by_cases h0 : n = 0
    · simp [jsDigitsAux, h0, decodeDigits]
    · have hdiv : n / 10 ≤ fuel := by
        have : n / 10 < n := Nat.div_lt_self (Nat.pos_of_ne_zero h0) (by omega)
        omega
      rw [jsDigitsAux, if_neg h0, decodeDigits_append_digit, ih _ hdiv,
        digitChar_decode _ (Nat.mod_lt n (by omega))]
      omega

theorem decodeDigits_jsNatToString (n : Nat) :
    decodeDigits (jsNatToString n).data = n := by
  by_cases h0 : n = 0
  · subst h0; decide
  · rw [jsNatToString, if_neg h0]
    exact decodeDigits_jsDigitsAux n n le_rfl

theorem jsNatToString_injective : Function.Injective jsNatToString := by
  intro a b h
  have := congrArg (fun s => decodeDigits s.data) h
  simpa [decodeDigits_jsNatToString] using this

theorem jsDigitsAux_digits : ∀ (fuel n : Nat), ∀ c ∈ jsDigitsAux fuel n, c.isDigit = true := by
  intro fuel
  induction fuel with
  | zero => intro n c hc; simp [jsDigitsAux] at hc
  | succ fuel ih =>
    intro n c hc
    by_cases h0 : n = 0
    · simp [jsDigitsAux, h0] at hc
    · rw [jsDigitsAux, if_neg h0] at hc
      rcases List.mem_append.1 hc with h | h
      · exact ih _ _ h
      · have hm : n % 10 < 10 := Nat.mod_lt n (by omega)
        have hc' : c = Nat.digitChar (n % 10) := by simpa using h
        subst hc'
        interval_cases h : n % 10 <;> decide

theorem jsDigitsAux_ne_nil (fuel n : Nat) (hn : 0 < n) (hf : 0 < fuel) :
    jsDigitsAux fuel n ≠ [] := by
  match fuel, hf with
  | fuel + 1, _ =>
    rw [jsDigitsAux, if_neg (Nat.pos_iff_ne_zero.1 hn)]
    simp

theorem jsNatToString_data_digits (n : Nat) :
    (jsNatToString n).data ≠ [] ∧ ∀ c ∈ (jsNatToString n).data, c.isDigit = true := by
  by_cases h0 : n = 0
  · subst h0; constructor
    · decide
    · intro c hc; simp [jsNatToString] at hc; subst hc; decide
  · rw [jsNatToString, if_neg h0]
    exact ⟨jsDigitsAux_ne_nil n n (Nat.pos_of_ne_zero h0) (Nat.pos_of_ne_zero h0),
      fun c hc => jsDigitsAux_digits n n c hc⟩


/-! ## Helper lemmas: the renumbering loop of `reorderVersionNumbers` -/

theorem renumberMemo_id (m : Memo) (v : Nat) : (renumberMemo m v).id = m.id := by
  cases hm : m.mode <;> simp [renumberMemo, hm]

theorem renumberMemo_version (m : Memo) (v : Nat) : (renumberMemo m v).version = v := by
  cases hm : m.mode <;> simp [renumberMemo, hm]

/-- Memos of a list with pairwise distinct ids are determined by their id. -/
theorem eq_of_mem_of_id_eq {ms : List Memo} (h : (ms.map (fun m => m.id)).Nodup)
    {a b : Memo} (ha : a ∈ ms) (hb : b ∈ ms) (hid : a.id = b.id) : a = b := by
  have hp : ms.Pairwise (fun x y => x.id ≠ y.id) := (List.pairwise_map).1 h
  by_contra hne
  exact hp.forall (fun x y hxy => (Ne.symm hxy)) ha hb hne hid

theorem findIdxSet_eq_map (acc : List Memo) (i : String) (x : Memo)
    (h : (acc.map (fun m => m.id)).Nodup) :
    (match acc.findIdx? (fun m => m.id == i) with
     | some memoIndex => acc.set memoIndex x
     | none => acc) = acc.map (fun m => if m.id == i then x else m) := by
  induction acc with
  | nil => simp
  | cons a l ih =>
    have hpair : a.id ∉ l.map (fun m => m.id) ∧ (l.map (fun m => m.id)).Nodup := by
      rw [List.map_cons] at h
      exact List.nodup_cons.1 h
    have hl := hpair.2
    by_cases ha : a.id = i
    · have hnotl : ∀ m ∈ l, (m.id == i) = false := by
        intro m hm
        refine beq_eq_false_iff_ne.2 (fun hmi => hpair.1 ?_)
        exact List.mem_map.2 ⟨m, hm, hmi.trans ha.symm⟩
      have hba : (a.id == i) = true := beq_iff_eq.2 ha
      have hmap : l.map (fun m => if m.id == i then x else m) = l := by
        rw [List.map_congr_left (g := fun m => m) (fun m hm => by rw [hnotl m hm]; simp)]
        exact List.map_id' l
      have hfind : (a :: l).findIdx? (fun m => m.id == i) = some 0 := by
        rw [List.findIdx?_cons, hba]
        rfl
      rw [hfind]
      show (a :: l).set 0 x = _
      rw [List.set_cons_zero, List.map_cons]
      show x :: l = (if (a.id == i) = true then x else a) :: _
      rw [if_pos hba, hmap]
    · have hba : (a.id == i) = false := beq_eq_false_iff_ne.2 ha
      have hIH := ih hl
      rw [List.findIdx?_cons, hba]
      simp only [Bool.false_eq_true, if_false, List.findIdx?_succ]
      cases hfi : l.findIdx? (fun m => m.id == i) with
      | none =>
        rw [hfi] at hIH
        simp only [Option.map_none']
        rw [List.map_cons, hba]
        simp only [Bool.false_eq_true, if_false]
        exact congrArg (a :: ·) hIH
      | some j =>
        rw [hfi] at hIH
        simp only [Option.map_some']
        rw [List.map_cons, hba]
        simp only [Bool.false_eq_true, if_false]
        show (a :: l).set (j + 1) x = a :: l.map (fun m => if m.id == i then x else m)
        rw [List.set_cons_succ]
        exact congrArg (a :: ·) hIH

theorem reorderStep_eq_map (acc : List Memo) (idx : Nat) (memo : Memo)
    (h : (acc.map (fun m => m.id)).Nodup) :
    reorderStep acc idx memo =
      acc.map (fun m =>
        if m.id == memo.id then
          (if memo.version = idx + 1 then m else renumberMemo memo (idx + 1))
        else m) := by
  by_cases hv : memo.version = idx + 1
  · rw [show reorderStep acc idx memo = acc from by simp [reorderStep, hv]]
    rw [List.map_congr_left (g := fun m => m) (fun m _ => by simp [hv])]
    exact (List.map_id' acc).symm
  · rw [show reorderStep acc idx memo =
        (match acc.findIdx? (fun m => m.id == memo.id) with
         | some memoIndex => acc.set memoIndex (renumberMemo memo (idx + 1))
         | none => acc) from by simp [reorderStep, hv]]
    rw [findIdxSet_eq_map acc memo.id (renumberMemo memo (idx + 1)) h]
    exact List.map_congr_left (fun m _ => by by_cases hmi : m.id = memo.id <;> simp [hmi, hv])

/-- `relAssign` is the identity on a memo whose id is not among the list's. -/
theorem relAssign_not_mem : ∀ (rel : List Memo) (s : Nat) (m : Memo),
    (∀ r ∈ rel, r.id ≠ m.id) → relAssign rel s m = m := by
  intro rel
  induction rel with
  | nil => intro s m _; rfl
  | cons r rest ih =>
    intro s m hne
    have hr : (r.id == m.id) = false :=
      beq_eq_false_iff_ne.2 (hne r (List.mem_cons_self r rest))
    simp only [relAssign, hr, Bool.false_eq_true, if_false]
    exact ih (s + 1) m (fun r' hr' => hne r' (List.mem_cons_of_mem r hr'))

/-- The map function of each single `reorderStep` preserves ids. -/
theorem reorderStepFun_id (memo m : Memo) (idx : Nat) :
    (if m.id == memo.id then
        (if memo.version = idx + 1 then m else renumberMemo memo (idx + 1))
      else m).id = m.id := by
  by_cases hmi : m.id = memo.id
  · by_cases hv : memo.version = idx + 1 <;> simp [hmi, hv, renumberMemo_id]
  · simp [hmi]

theorem reorderLoop_eq_map : ∀ (rel : List Memo) (start : Nat) (acc : List Memo),
    (acc.map (fun m => m.id)).Nodup → (rel.map (fun m => m.id)).Nodup →
    reorderLoop rel start acc = acc.map (relAssign rel start) := by
  intro rel
  induction rel with
  | nil =>
    intro start acc _ _
    show acc = acc.map (relAssign [] start)
    have h1 : acc.map (relAssign [] start) = acc.map (fun m => m) :=
      List.map_congr_left (fun m _ => rfl)
    rw [List.map_id'] at h1
    exact h1.symm
  | cons r rest ih =>
    intro start acc hacc hrel
    have hpair : r.id ∉ rest.map (fun m => m.id) ∧ (rest.map (fun m => m.id)).Nodup := by
      rw [List.map_cons] at hrel
      exact List.nodup_cons.1 hrel
    have hrid : ∀ r' ∈ rest, r'.id ≠ r.id := by
      intro r' hr' he
      exact hpair.1 (List.mem_map.2 ⟨r', hr', he⟩)
    have hstep := reorderStep_eq_map acc start r hacc
    set g := fun m =>
      if m.id == r.id then (if r.version = start + 1 then m else renumberMemo r (start + 1))
      else m with hg
    have hgid : ∀ m, (g m).id = m.id := fun m => reorderStepFun_id r m start
    have hacc' : ((acc.map g).map (fun m => m.id)).Nodup := by
      rw [List.map_map,
        show ((fun m => m.id) ∘ g) = fun m => (g m).id from rfl,
        List.map_congr_left (g := fun m => m.id) (fun m _ => hgid m)]
      exact hacc
    show reorderLoop rest (start + 1) (reorderStep acc start r) = _
    rw [hstep, ih (start + 1) (acc.map g) hacc' hpair.2, List.map_map]
    refine List.map_congr_left (fun m _ => ?_)
    show relAssign rest (start + 1) (g m) = relAssign (r :: rest) start m
    by_cases hmi : m.id = r.id
    · have hbeq : (m.id == r.id) = true := beq_iff_eq.2 hmi
      have hbeq' : (r.id == m.id) = true := beq_iff_eq.2 hmi.symm
      rw [hg]
      simp only [hbeq, if_true]
      by_cases hv : r.version = start + 1
      · simp only [hv, if_true]
        rw [relAssign_not_mem rest (start + 1) m
          (fun r' hr' he => hrid r' hr' (he.trans hmi))]
        simp [relAssign, hbeq', hv]
      · simp only [hv, if_false]
        rw [relAssign_not_mem rest (start + 1) (renumberMemo r (start + 1))
          (fun r' hr' he => hrid r' hr' (by rw [renumberMemo_id] at he; exact he))]
        simp [relAssign, hbeq', hv]
    · have hbeq : (m.id == r.id) = false := beq_eq_false_iff_ne.2 hmi
      have hbeq' : (r.id == m.id) = false := beq_eq_false_iff_ne.2 (fun h => hmi h.symm)
      rw [hg]
      simp only [hbeq, Bool.false_eq_true, if_false]
      simp [relAssign, hbeq']

theorem relAssign_id : ∀ (rel : List Memo) (s : Nat) (m : Memo),
    (relAssign rel s m).id = m.id := by
  intro rel
  induction rel with
  | nil => intro s m; rfl
  | cons r rest ih =>
    intro s m
    show (if r.id == m.id then
        (if r.version = s + 1 then m else renumberMemo r (s + 1))
      else relAssign rest (s + 1) m).id = m.id
    by_cases hmi : r.id = m.id
    · by_cases hv : r.version = s + 1 <;>
        simp [hmi, hv, renumberMemo_id]
    · have hbeq : (r.id == m.id) = false := beq_eq_false_iff_ne.2 hmi
      simp only [hbeq, Bool.false_eq_true, if_false]
      exact ih (s + 1) m

theorem relAssign_getElem : ∀ (rel : List Memo) (s : Nat),
    (rel.map (fun m => m.id)).Nodup → ∀ (j : Nat) (hj : j < rel.length),
    relAssign rel s rel[j] =
      if rel[j].version = s + j + 1 then rel[j] else renumberMemo rel[j] (s + j + 1) := by
  intro rel
  induction rel with
  | nil => intro s _ j hj; exact absurd hj (by simp)
  | cons r rest ih =>
    intro s hN j hj
    have hpair : r.id ∉ rest.map (fun m => m.id) ∧ (rest.map (fun m => m.id)).Nodup := by
      rw [List.map_cons] at hN
      exact List.nodup_cons.1 hN
    cases j with
    | zero =>
      show relAssign (r :: rest) s r = _
      simp [relAssign]
    | succ j =>
      have hj' : j < rest.length := by simpa using hj
      have hx : (r :: rest)[j + 1] = rest[j] := by simp
      rw [hx]
      have hne : (r.id == rest[j].id) = false := by
        refine beq_eq_false_iff_ne.2 (fun he => hpair.1 ?_)
        exact List.mem_map.2 ⟨rest[j], by simp [List.mem_iff_getElem]; exact ⟨j, hj', rfl⟩, he.symm⟩
      show (if r.id == rest[j].id then _ else relAssign rest (s + 1) rest[j]) = _
      rw [hne]
      simp only [Bool.false_eq_true, if_false]
      rw [ih (s + 1) hpair.2 j hj']
      have harith : s + 1 + j + 1 = s + (j + 1) + 1 := by omega
      rw [harith]

theorem relAssign_getElem_version (rel : List Memo) (s : Nat)
    (hN : (rel.map (fun m => m.id)).Nodup) (j : Nat) (hj : j < rel.length) :
    (relAssign rel s rel[j]).version = s + j + 1 := by
  rw [relAssign_getElem rel s hN j hj]
  by_cases hv : rel[j].version = s + j + 1
  · rw [if_pos hv]; exact hv
  · rw [if_neg hv]; exact renumberMemo_version _ _

/-! ## Helper lemmas: `sortedRelated` -/

theorem sortedRelated_perm (deletedMemo : Memo) (allMemos : List Memo) :
    (sortedRelated deletedMemo allMemos).Perm
      ((getRelatedMemos deletedMemo allMemos).filter (fun m => m.id != deletedMemo.id)) :=
  List.perm_insertionSort _ _

theorem mem_sortedRelated {deletedMemo : Memo} {allMemos : List Memo} {m : Memo} :
    m ∈ sortedRelated deletedMemo allMemos ↔
      m ∈ allMemos ∧ relatedTo deletedMemo m = true ∧ m.id ≠ deletedMemo.id := by
  rw [(sortedRelated_perm deletedMemo allMemos).mem_iff]
  simp only [List.mem_filter, getRelatedMemos, bne_iff_ne, ne_eq, and_assoc]

theorem sortedRelated_sublist_ids (deletedMemo : Memo) (allMemos : List Memo) :
    ((getRelatedMemos deletedMemo allMemos).filter
        (fun m => m.id != deletedMemo.id)).Sublist allMemos :=
  ((getRelatedMemos deletedMemo allMemos).filter_sublist).trans
    (allMemos.filter_sublist)

theorem sortedRelated_ids_nodup (deletedMemo : Memo) (allMemos : List Memo)
    (h : (allMemos.map (fun m => m.id)).Nodup) :
    ((sortedRelated deletedMemo allMemos).map (fun m => m.id)).Nodup := by
  have h1 : (((getRelatedMemos deletedMemo allMemos).filter
      (fun m => m.id != deletedMemo.id)).map (fun m => m.id)).Nodup :=
    ((sortedRelated_sublist_ids deletedMemo allMemos).map (fun m => m.id)).nodup h
  exact ((sortedRelated_perm deletedMemo allMemos).map (fun m => m.id)).symm.nodup h1

/-- With pairwise distinct ids, `reorderVersionNumbers` acts pointwise. -/
theorem reorderVersionNumbers_eq_map (deletedMemo : Memo) (allMemos : List Memo)
    (h : (allMemos.map (fun m => m.id)).Nodup) :
    reorderVersionNumbers deletedMemo allMemos =
      allMemos.map (relAssign (sortedRelated deletedMemo allMemos) 0) :=
  reorderLoop_eq_map (sortedRelated deletedMemo allMemos) 0 allMemos h
    (sortedRelated_ids_nodup deletedMemo allMemos h)

theorem relatedTo_refl (m : Memo) : relatedTo m m = true := by
  cases hm : m.mode <;> simp [relatedTo, hm]

theorem createNewMemo_version (mode : UserMode) (content : String)
    (options : CreateMemoOptions) (newId : String) (now defaultYear : Nat) :
    (createNewMemo mode content options newId now defaultYear).version = 1 := by
  cases mode <;> rfl

/-- After `reorderVersionNumbers`, the memos carrying the ids of the deleted
memo's (sorted) identity-group siblings hold exactly the versions
`1 .. K`. -/
theorem reorder_group_versions (deletedMemo : Memo) (allMemos : List Memo)
    (h : (allMemos.map (fun m => m.id)).Nodup) :
    (((reorderVersionNumbers deletedMemo allMemos).filter
        (fun m => decide (m.id ∈ sortedRelatedIds deletedMemo allMemos))).map
        (fun m => m.version)).Perm
      (List.range' 1 (sortedRelated deletedMemo allMemos).length) := by
  have hrn := sortedRelated_ids_nodup deletedMemo allMemos h
  rw [reorderVersionNumbers_eq_map deletedMemo allMemos h]
  rw [List.filter_map]
  have hcong1 : allMemos.filter
      ((fun m => decide (m.id ∈ sortedRelatedIds deletedMemo allMemos)) ∘
        relAssign (sortedRelated deletedMemo allMemos) 0) =
      allMemos.filter (fun m => decide (m.id ∈ sortedRelatedIds deletedMemo allMemos)) :=
    List.filter_congr (fun m _ => by
      simp only [Function.comp, relAssign_id])
  rw [hcong1]
  have hcong2 : allMemos.filter (fun m => decide (m.id ∈ sortedRelatedIds deletedMemo allMemos)) =
      allMemos.filter (fun m => (m.id != deletedMemo.id) && relatedTo deletedMemo m) := by
    refine List.filter_congr (fun m hm => ?_)
    by_cases hmem : m.id ∈ sortedRelatedIds deletedMemo allMemos
    · obtain ⟨r, hr, hrid⟩ := List.mem_map.1 hmem
      obtain ⟨hr1, hr2, hr3⟩ := mem_sortedRelated.1 hr
      have := eq_of_mem_of_id_eq h hr1 hm hrid
      subst this
      simp [hmem, hr2, hr3]
    · have hfalse : ((m.id != deletedMemo.id) && relatedTo deletedMemo m) = false := by
        by_contra hne
        have hb : ((m.id != deletedMemo.id) && relatedTo deletedMemo m) = true := by
          revert hne
          cases ((m.id != deletedMemo.id) && relatedTo deletedMemo m) <;> simp
        obtain ⟨h1, h2⟩ := Bool.and_eq_true_iff.mp hb
        exact hmem (List.mem_map.2 ⟨m, mem_sortedRelated.2 ⟨hm, h2, by simpa using h1⟩, rfl⟩)
      simp [hmem, hfalse]
  rw [hcong2]
  have hF : (allMemos.filter (fun m => (m.id != deletedMemo.id) && relatedTo deletedMemo m)).Perm
      (sortedRelated deletedMemo allMemos) := by
    have := sortedRelated_perm deletedMemo allMemos
    rw [show (getRelatedMemos deletedMemo allMemos).filter (fun m => m.id != deletedMemo.id) =
        allMemos.filter (fun m => (m.id != deletedMemo.id) && relatedTo deletedMemo m) from
      List.filter_filter _ _] at this
    exact this.symm
  refine ((hF.map (relAssign (sortedRelated deletedMemo allMemos) 0)).map
    (fun m => m.version)).trans ?_
  rw [List.map_map]
  refine List.Perm.of_eq (List.ext_getElem ?_ ?_)
  · simp [List.length_range']
  · intro j h1 h2
    have hj : j < (sortedRelated deletedMemo allMemos).length := by simpa using h1
    rw [List.getElem_map, List.getElem_range']
    show (relAssign (sortedRelated deletedMemo allMemos) 0
      (sortedRelated deletedMemo allMemos)[j]).version = 1 + 1 * j
    rw [relAssign_getElem_version _ 0 hrn j hj]
    omega

/-! ## Claim C7 -/

/-- Claim C7: for every removed memo and every memo list (with the store's
pairwise-distinct ids), `reorderVersionNumbers` keeps every memo outside the
removed memo's identity group (and any memo equal to the removed one by id)
unchanged in all fields and at its position; and the result is never
partially renumbered: the whole remaining group is renumbered, the `j`-th
sibling in version order receiving version `j + 1`, so the full remaining
set with corrected versions is returned (the source has no abort path, so
the error branch of the claim's disjunction is vacuous). -/
theorem reorderVersionNumbers_frame_and_allOrNothing (deletedMemo : Memo)
    (allMemos : List Memo) (h : (allMemos.map (fun m => m.id)).Nodup) :
    (reorderVersionNumbers deletedMemo allMemos).length = allMemos.length ∧
    (∀ (i : Nat) (m : Memo), allMemos[i]? = some m →
      (relatedTo deletedMemo m = false ∨ m.id = deletedMemo.id) →
      (reorderVersionNumbers deletedMemo allMemos)[i]? = some m) ∧
    (∀ (j : Nat) (r : Memo), (sortedRelated deletedMemo allMemos)[j]? = some r →
      ∃ (i : Nat) (m' : Memo), (reorderVersionNumbers deletedMemo allMemos)[i]? = some m' ∧
        m'.id = r.id ∧ m'.version = j + 1) := by
  rw [reorderVersionNumbers_eq_map deletedMemo allMemos h]
  refine ⟨by simp, ?_, ?_⟩
  · intro i m him hcond
    rw [List.getElem?_map, him]
    have hm : m ∈ allMemos := by
      obtain ⟨hlt, hget⟩ := List.getElem?_eq_some.1 him
      exact List.mem_iff_getElem.2 ⟨i, hlt, hget⟩
    have hfix : relAssign (sortedRelated deletedMemo allMemos) 0 m = m := by
      refine relAssign_not_mem _ 0 m (fun r hr he => ?_)
      obtain ⟨hr1, hr2, hr3⟩ := mem_sortedRelated.1 hr
      have := eq_of_mem_of_id_eq h hr1 hm he
      subst this
      rcases hcond with hc | hc
      · rw [hr2] at hc; exact Bool.noConfusion hc
      · exact hr3 hc
    rw [Option.map_some', hfix]
  · intro j r hjr
    obtain ⟨hlt, hget⟩ := List.getElem?_eq_some.1 hjr
    have hrel : r ∈ sortedRelated deletedMemo allMemos :=
      List.mem_iff_getElem.2 ⟨j, hlt, hget⟩
    have hrm : r ∈ allMemos := (mem_sortedRelated.1 hrel).1
    obtain ⟨i, hi⟩ := List.getElem?_of_mem hrm
    refine ⟨i, relAssign (sortedRelated deletedMemo allMemos) 0 r, ?_, relAssign_id _ _ _, ?_⟩
    · rw [List.getElem?_map, hi]; rfl
    · rw [← hget,
        relAssign_getElem_version _ 0 (sortedRelated_ids_nodup deletedMemo allMemos h) j hlt]
      omega

/-- Witness for C7: a concrete three-memo store (two cohort siblings and an
unrelated freeform memo); deleting the version-3 sibling leaves the freeform
memo untouched at its position and renumbers the remaining sibling. -/
theorem reorderVersionNumbers_frame_witness :
    (reorderVersionNumbers (wStudentMemo "c" 3)
        [wStudentMemo "a" 2, wGeneralMemo "b" "메모" 5])[1]? =
      some (wGeneralMemo "b" "메모" 5) ∧
    ∃ (i : Nat) (m' : Memo),
      (reorderVersionNumbers (wStudentMemo "c" 3)
          [wStudentMemo "a" 2, wGeneralMemo "b" "메모" 5])[i]? = some m' ∧
        m'.id = "a" ∧ m'.version = 1 := by
  have hmain := reorderVersionNumbers_frame_and_allOrNothing (wStudentMemo "c" 3)
    [wStudentMemo "a" 2, wGeneralMemo "b" "메모" 5] (by decide)
  refine ⟨hmain.2.1 1 (wGeneralMemo "b" "메모" 5) (by decide) (Or.inl (by decide)), ?_⟩
  have := hmain.2.2 0 (wStudentMemo "a" 2) (by decide)
  simpa using this

/-! ## Claim C1 -/

/-- Claim C1 is refuted on the create path: `createNewMemo` always assigns
version 1, so creating a second cohort memo for the already-occupied group
(중1, 수학) via `addMemo` leaves the group with versions `[1, 1]`, not the
contiguous run `1..2`. -/
theorem createNewMemo_duplicate_version_counterexample :
    (((addMemo [wStudentMemo "m1" 1]
          (createNewMemo .student "" { grade := some "중1", subject := some "수학" }
            "m2" 0 2024)).filter
        (fun m => relatedTo
          (createNewMemo .student "" { grade := some "중1", subject := some "수학" }
            "m2" 0 2024) m)).map (fun m => m.version)) = [1, 1] ∧
    ¬ (([1, 1] : List Nat).Perm (List.range' 1 2)) := by
  constructor
  · decide
  · decide

/-- Claim C1, amended: after a delete/renumber (`reorderVersionNumbers`) the
memos carrying the removed memo's group-sibling ids hold exactly the
contiguous versions `1..K`; after a create (`addMemo` of a `createNewMemo`
result) this holds only when the new memo's identity group was empty — the
new memo always carries version 1 (creating into a nonempty cohort/roster
group duplicates version 1, see the counterexample). -/
theorem versionLineage_contiguous_amended :
    (∀ (deletedMemo : Memo) (allMemos : List Memo),
      (allMemos.map (fun m => m.id)).Nodup →
      (((reorderVersionNumbers deletedMemo allMemos).filter
          (fun m => decide (m.id ∈ sortedRelatedIds deletedMemo allMemos))).map
          (fun m => m.version)).Perm
        (List.range' 1 (sortedRelated deletedMemo allMemos).length)) ∧
    (∀ (mode : UserMode) (content : String) (options : CreateMemoOptions)
        (newId : String) (now defaultYear : Nat) (memos : List Memo),
      getRelatedMemos (createNewMemo mode content options newId now defaultYear) memos = [] →
      memos.any (fun m =>
        m.mode == .general &&
          m.title == (createNewMemo mode content options newId now defaultYear).title &&
          m.id != (createNewMemo mode content options newId now defaultYear).id) = false →
      ((addMemo memos (createNewMemo mode content options newId now defaultYear)).filter
          (fun m =>
            relatedTo (createNewMemo mode content options newId now defaultYear) m)).map
          (fun m => m.version) = [1]) := by
  constructor
  · exact fun d ms h => reorder_group_versions d ms h
  · intro mode content options newId now defaultYear memos hempty hnocoll
    set memo := createNewMemo mode content options newId now defaultYear with hmemo
    have happ : addMemo memos memo = memos ++ [memo] := by
      rw [addMemo]
      rcases hmode : memo.mode with _ | _ | _
      · simp [hmode, hnocoll]
      · simp [hmode]
      · simp [hmode]
    rw [happ, List.filter_append]
    have h1 : memos.filter (fun m => relatedTo memo m) = [] := hempty
    rw [h1]
    have h2 : [memo].filter (fun m => relatedTo memo m) = [memo] := by
      simp [relatedTo_refl]
    rw [h2, List.nil_append, List.map_cons, List.map_nil, createNewMemo_version]

/-- Witness for the amended C1: the renumber clause at a concrete two-sibling
group, and the create clause at a concrete empty-group create. -/
theorem versionLineage_contiguous_amended_witness :
    ((((reorderVersionNumbers (wStudentMemo "c" 2)
          [wStudentMemo "a" 1, wStudentMemo "b" 3]).filter
        (fun m => decide (m.id ∈ sortedRelatedIds (wStudentMemo "c" 2)
          [wStudentMemo "a" 1, wStudentMemo "b" 3]))).map
        (fun m => m.version)).Perm
      (List.range' 1 (sortedRelated (wStudentMemo "c" 2)
        [wStudentMemo "a" 1, wStudentMemo "b" 3]).length)) ∧
    ((addMemo [wStudentMemo "a" 1]
        (createNewMemo .student "" { grade := some "중1", subject := some "영어" }
          "m2" 0 2024)).filter
      (fun m => relatedTo
        (createNewMemo .student "" { grade := some "중1", subject := some "영어" }
          "m2" 0 2024) m)).map (fun m => m.version) = [1] :=
  ⟨versionLineage_contiguous_amended.1 (wStudentMemo "c" 2)
      [wStudentMemo "a" 1, wStudentMemo "b" 3] (by decide),
    versionLineage_contiguous_amended.2 .student ""
      { grade := some "중1", subject := some "영어" } "m2" 0 2024
      [wStudentMemo "a" 1] (by decide) (by decide)⟩

/-! ## Claim C2 -/

theorem versionLoop_some_spec (used : List Nat) : ∀ (fuel i r : Nat),
    versionLoop used i fuel = some r →
    i ≤ r ∧ r ∉ used ∧ ∀ k, i ≤ k → k < r → k ∈ used := by
  intro fuel
  induction fuel with
  | zero => intro i r h; exact absurd h (by simp [versionLoop])
  | succ fuel ih =>
    intro i r h
    rw [versionLoop] at h
    by_cases hi : i ∈ used
    · rw [if_pos hi] at h
      obtain ⟨h1, h2, h3⟩ := ih (i + 1) r h
      refine ⟨by omega, h2, fun k hk1 hk2 => ?_⟩
      by_cases hki : k = i
      · subst hki; exact hi
      · exact h3 k (by omega) hk2
    · rw [if_neg hi] at h
      obtain rfl := Option.some.inj h
      exact ⟨le_rfl, hi, fun k hk1 hk2 => absurd (lt_of_le_of_lt hk1 hk2) (lt_irrefl _)⟩

theorem versionLoop_isSome (used : List Nat) : ∀ (fuel i : Nat),
    (∃ k, i ≤ k ∧ k < i + fuel ∧ k ∉ used) → (versionLoop used i fuel).isSome := by
  intro fuel
  induction fuel with
  | zero => rintro i ⟨k, hk1, hk2, _⟩; omega
  | succ fuel ih =>
    rintro i ⟨k, hk1, hk2, hk3⟩
    rw [versionLoop]
    by_cases hi : i ∈ used
    · rw [if_pos hi]
      refine ih (i + 1) ⟨k, ?_, by omega, hk3⟩
      rcases Nat.eq_or_lt_of_le hk1 with hik | hik
      · exact absurd hi (hik ▸ hk3)
      · omega
    · rw [if_neg hi]; rfl

/-- Pigeonhole: among `1 .. used.length + 1` some value is missing from
`used`. -/
theorem exists_unused (used : List Nat) :
    ∃ k, 1 ≤ k ∧ k < 1 + (used.length + 1) ∧ k ∉ used := by
  by_contra hcon
  push_neg at hcon
  have hsub : (List.range' 1 (used.length + 1)) ⊆ used := by
    intro x hx
    have := List.mem_range'_1.1 hx
    exact hcon x this.1 (by omega)
  have hle := (List.subperm_of_subset (List.nodup_range' _ _) hsub).length_le
  rw [List.length_range'] at hle
  omega

/-- Claim C2: `getNextAvailableVersion` returns the smallest positive
integer not among the version numbers of the target memo's identity group;
in particular 3 over used versions {1,2,4}, 4 over {1,2,3} and 1 over the
empty group. -/
theorem getNextAvailableVersion_spec :
    (∀ (targetMemo : Memo) (allMemos : List Memo),
      0 < getNextAvailableVersion targetMemo allMemos ∧
      getNextAvailableVersion targetMemo allMemos ∉
        (getRelatedMemos targetMemo allMemos).map (fun m => m.version) ∧
      ∀ k, 0 < k → k < getNextAvailableVersion targetMemo allMemos →
        k ∈ (getRelatedMemos targetMemo allMemos).map (fun m => m.version)) ∧
    getNextAvailableVersion (wStudentMemo "t" 1)
      [wStudentMemo "a" 1, wStudentMemo "b" 2, wStudentMemo "c" 4] = 3 ∧
    getNextAvailableVersion (wStudentMemo "t" 1)
      [wStudentMemo "a" 1, wStudentMemo "b" 2, wStudentMemo "c" 3] = 4 ∧
    getNextAvailableVersion (wStudentMemo "t" 1) [] = 1 := by
  refine ⟨?_, by decide, by decide, by decide⟩
  intro targetMemo allMemos
  set vs := (getRelatedMemos targetMemo allMemos).map (fun m => m.version) with hvs
  set used := List.insertionSort (fun a b => a ≤ b) vs with hused
  have hmm : ∀ x, x ∈ used ↔ x ∈ vs := fun x => (List.perm_insertionSort _ vs).mem_iff
  obtain ⟨k, hk1, hk2, hk3⟩ := exists_unused used
  have hs := versionLoop_isSome used (used.length + 1) 1 ⟨k, hk1, by omega, hk3⟩
  obtain ⟨r, hr⟩ := Option.isSome_iff_exists.1 hs
  have hgn : getNextAvailableVersion targetMemo allMemos = r := by
    rw [getNextAvailableVersion, ← hvs, ← hused, hr]
  obtain ⟨h1, h2, h3⟩ := versionLoop_some_spec used _ 1 r hr
  rw [hgn]
  exact ⟨by omega, fun hc => h2 ((hmm r).2 hc),
    fun k' hk1' hk2' => (hmm k').1 (h3 k' hk1' hk2')⟩

/-- Witness for C2: the general characterization applied at the concrete
{1,2,4} group: 2 is used, and the returned version is positive. -/
theorem getNextAvailableVersion_spec_witness :
    (2 : Nat) ∈ (getRelatedMemos (wStudentMemo "t" 1)
      [wStudentMemo "a" 1, wStudentMemo "b" 2, wStudentMemo "c" 4]).map
      (fun m => m.version) ∧
    0 < getNextAvailableVersion (wStudentMemo "t" 1)
      [wStudentMemo "a" 1, wStudentMemo "b" 2, wStudentMemo "c" 4] := by
  have h := getNextAvailableVersion_spec.1 (wStudentMemo "t" 1)
    [wStudentMemo "a" 1, wStudentMemo "b" 2, wStudentMemo "c" 4]
  exact ⟨h.2.2 2 (by decide) (by decide), h.1⟩

/-! ## Claim C3 -/

theorem takeWhile_all_append {p : Char → Bool} : ∀ (l1 l2 : List Char),
    (∀ c ∈ l1, p c = true) → (l1 ++ l2).takeWhile p = l1 ++ l2.takeWhile p := by
  intro l1
  induction l1 with
  | nil => intro l2 _; rfl
  | cons c cs ih =>
    intro l2 hall
    rw [List.cons_append, List.takeWhile_cons, hall c (List.mem_cons_self c cs)]
    rw [ih l2 (fun x hx => hall x (List.mem_cons_of_mem c hx)), List.cons_append]
    simp

/-- Stripping the trailing `-N` produced by appending `-` and a rendered
number recovers the original string. -/
theorem replaceDashNumberSuffix_append (x : String) (n : Nat) :
    replaceDashNumberSuffix (x ++ "-" ++ jsNatToString n) = x := by
  obtain ⟨hne, hdig⟩ := jsNatToString_data_digits n
  have hdata : (x ++ "-" ++ jsNatToString n).data =
      x.data ++ '-' :: (jsNatToString n).data := by
    rw [String.data_append, String.data_append]
    simp
  have hrev : (x ++ "-" ++ jsNatToString n).data.reverse =
      (jsNatToString n).data.reverse ++ '-' :: x.data.reverse := by
    rw [hdata, List.reverse_append, List.reverse_cons, List.append_assoc]
    rfl
  have htw : ((jsNatToString n).data.reverse ++ '-' :: x.data.reverse).takeWhile
      (fun c => c.isDigit) = (jsNatToString n).data.reverse := by
    rw [takeWhile_all_append _ _ (fun c hc => hdig c (List.mem_reverse.1 hc))]
    rw [List.takeWhile_cons]
    simp
  rw [replaceDashNumberSuffix, hrev, htw]
  have hne' : ¬ (jsNatToString n).data.reverse.isEmpty = true := by
    simp [List.isEmpty_iff]
    exact fun hc => hne (by simpa using congrArg List.reverse hc)
  rw [if_neg hne']
  rw [List.drop_left' (by rw [List.length_reverse])]
  simp

/-- Two-element permutations are one of the two arrangements. -/
theorem perm_pair {α : Type _} {l : List α} {a b : α} (h : l.Perm [a, b]) :
    l = [a, b] ∨ l = [b, a] := by
  have hlen := h.length_eq
  cases l with
  | nil => simp at hlen
  | cons x t =>
    cases t with
    | nil => simp at hlen
    | cons y rest =>
      have hrest : rest = [] := by
        have hr0 : rest.length = 0 := by
          simp only [List.length_cons, List.length_nil] at hlen
          omega
        exact List.length_eq_zero.1 hr0
      subst hrest
      have hx : x ∈ [a, b] := h.subset (List.mem_cons_self x [y])
      rcases List.mem_cons.1 hx with rfl | hx
      · left
        have h' := h.cons_inv
        rw [List.perm_singleton.1 h']
      · simp only [List.mem_singleton] at hx
        right
        have h2 : (x :: [y]).Perm [b, a] := h.trans (List.Perm.swap b a [])
        rw [hx] at h2
        have h' := h2.cons_inv
        rw [hx, List.perm_singleton.1 h']

/-- Claim C3: for every identity group — of any organizing scheme — whose
members in the store hold versions {1,2,3}, deleting the version-2 memo
and applying `reorderVersionNumbers` to the remaining memos leaves the
version-1 member unchanged, renumbers the formerly-version-3 member to
version 2, and the surviving group members hold exactly the versions
{1,2}; the renumbered member's names encode version 2: for Cohort (학생)
`internalTitle = grade-subject-2` and `displayTitle = subject-2`, for
Roster (교사) `internalTitle = year-grade-subject-student-2` (its
`displayTitle`, the member name, does not encode the version and is left
as is), and for Freeform (일반) `title = base-2`.  The store may contain
any other memos; the group content is pinned only up to order. -/
theorem reorder_after_delete_version2 (m1 m2 m3 : Memo) (remaining : List Memo)
    (hN : (remaining.map (fun m => m.id)).Nodup)
    (hgroup : ((getRelatedMemos m2 remaining).filter
      (fun m => m.id != m2.id)).Perm [m1, m3])
    (hv1 : m1.version = 1) (hv3 : m3.version = 3) (h13 : m1.id ≠ m3.id) :
    (∃ i : Nat, (reorderVersionNumbers m2 remaining)[i]? = some m1) ∧
    (∃ i : Nat, (reorderVersionNumbers m2 remaining)[i]? = some (renumberMemo m3 2)) ∧
    (renumberMemo m3 2).version = 2 ∧
    (((reorderVersionNumbers m2 remaining).filter
        (fun m => decide (m.id ∈ sortedRelatedIds m2 remaining))).map
        (fun m => m.version)).Perm [1, 2] ∧
    (m3.mode = .student →
      (renumberMemo m3 2).internalTitle =
        m3.grade ++ "-" ++ m3.subject ++ "-" ++ jsNatToString 2 ∧
      (renumberMemo m3 2).displayTitle = m3.subject ++ "-" ++ jsNatToString 2) ∧
    (m3.mode = .teacher →
      (renumberMemo m3 2).internalTitle =
        jsNatToString m3.year ++ "-" ++ m3.grade ++ "-" ++ m3.subject ++ "-" ++
          m3.student ++ "-" ++ jsNatToString 2 ∧
      (renumberMemo m3 2).displayTitle = m3.displayTitle) ∧
    (m3.mode = .general →
      (renumberMemo m3 2).title = getMemoBaseIdentifier m3 ++ "-" ++ jsNatToString 2) := by
  have hsub := (sortedRelated_sublist_ids m2 remaining).subset
  have hm1mem : m1 ∈ remaining :=
    hsub (hgroup.mem_iff.2 (List.mem_cons_self m1 [m3]))
  have hm3mem : m3 ∈ remaining :=
    hsub (hgroup.mem_iff.2 (List.mem_cons_of_mem m1 (List.mem_cons_self m3 [])))
  have hsr : sortedRelated m2 remaining = [m1, m3] := by
    rcases perm_pair hgroup with hF | hF
    · rw [sortedRelated, hF]
      simp [List.insertionSort, List.orderedInsert, hv1, hv3]
    · rw [sortedRelated, hF]
      simp [List.insertionSort, List.orderedInsert, hv1, hv3]
  have ha1 : relAssign [m1, m3] 0 m1 = m1 := by
    simp [relAssign, hv1]
  have ha3 : relAssign [m1, m3] 0 m3 = renumberMemo m3 2 := by
    have hb : (m1.id == m3.id) = false := beq_eq_false_iff_ne.2 h13
    simp [relAssign, hb, hv3]
  have hmap : reorderVersionNumbers m2 remaining = remaining.map (relAssign [m1, m3] 0) := by
    rw [reorderVersionNumbers_eq_map m2 remaining hN, hsr]
  refine ⟨?_, ?_, renumberMemo_version m3 2, ?_, ?_, ?_, ?_⟩
  · obtain ⟨i, hi⟩ := List.getElem?_of_mem hm1mem
    exact ⟨i, by rw [hmap, List.getElem?_map, hi, Option.map_some', ha1]⟩
  · obtain ⟨i, hi⟩ := List.getElem?_of_mem hm3mem
    exact ⟨i, by rw [hmap, List.getElem?_map, hi, Option.map_some', ha3]⟩
  · have h9 := reorder_group_versions m2 remaining hN
    rw [hsr] at h9
    simpa using h9
  · intro hmode
    constructor
    · simp [renumberMemo, hmode, createInternalTitle, showOptString]
    · simp [renumberMemo, hmode, createDisplayTitle, showOptString]
  · intro hmode
    constructor
    · simp [renumberMemo, hmode, createInternalTitle, showOptString]
    · simp [renumberMemo, hmode]
  · intro hmode
    simp [renumberMemo, hmode]

/-- Witness for C3: a roster (교사) group {1,2,3} inside a store that also
holds an unrelated freeform memo; deleting the version-2 memo renumbers the
version-3 memo to 2 with its internal name recomputed, the version-1 memo
and the unrelated memo survive, and the group versions are exactly {1,2}. -/
theorem reorder_after_delete_version2_witness :
    (∃ i : Nat, (reorderVersionNumbers (wTeacherMemo "b" 2)
        [wTeacherMemo "a" 1, wGeneralMemo "z" "기타" 7, wTeacherMemo "c" 3])[i]? =
      some (renumberMemo (wTeacherMemo "c" 3) 2)) ∧
    (renumberMemo (wTeacherMemo "c" 3) 2).version = 2 ∧
    (((reorderVersionNumbers (wTeacherMemo "b" 2)
          [wTeacherMemo "a" 1, wGeneralMemo "z" "기타" 7, wTeacherMemo "c" 3]).filter
        (fun m => decide (m.id ∈ sortedRelatedIds (wTeacherMemo "b" 2)
          [wTeacherMemo "a" 1, wGeneralMemo "z" "기타" 7, wTeacherMemo "c" 3]))).map
        (fun m => m.version)).Perm [1, 2] ∧
    (renumberMemo (wTeacherMemo "c" 3) 2).internalTitle =
      jsNatToString (wTeacherMemo "c" 3).year ++ "-" ++ (wTeacherMemo "c" 3).grade ++ "-" ++
        (wTeacherMemo "c" 3).subject ++ "-" ++ (wTeacherMemo "c" 3).student ++ "-" ++
        jsNatToString 2 := by
  have h := reorder_after_delete_version2 (wTeacherMemo "a" 1) (wTeacherMemo "b" 2)
    (wTeacherMemo "c" 3) [wTeacherMemo "a" 1, wGeneralMemo "z" "기타" 7, wTeacherMemo "c" 3]
    (by decide) (by decide) rfl rfl (by decide)
  exact ⟨h.2.1, h.2.2.1, h.2.2.2.1, (h.2.2.2.2.2.1 rfl).1⟩

/-! ## Claim C4 -/

theorem dedupMemos_go : ∀ (files : List ProcessedFile) (acc : List Memo),
    (acc.map (fun m => m.id)).Nodup → (∀ a ∈ acc, a.id ≠ "") →
    ((dedupMemos files (acc.map (fun m => m.id)) acc).map (fun m => m.id)).Nodup ∧
    (∀ a ∈ acc, a ∈ dedupMemos files (acc.map (fun m => m.id)) acc) ∧
    (∀ m ∈ dedupMemos files (acc.map (fun m => m.id)) acc, m.id ≠ "") ∧
    (∀ m ∈ dedupMemos files (acc.map (fun m => m.id)) acc,
      m ∈ acc ∨ (m.id ∉ acc.map (fun m => m.id) ∧ firstAdmitted files m.id = some m)) ∧
    (∀ f ∈ files, ∀ m', f.memo = some m' → m'.id ≠ "" →
      ∃ m'' ∈ dedupMemos files (acc.map (fun m => m.id)) acc, m''.id = m'.id) := by
  intro files
  induction files with
  | nil =>
    intro acc hN hne
    refine ⟨by simpa [dedupMemos] using hN, by simp [dedupMemos], by simpa [dedupMemos] using hne,
      by intro m hm; exact Or.inl (by simpa [dedupMemos] using hm), by simp⟩
  | cons f rest ih =>
    intro acc hN hne
    cases hf : f.memo with
    | none =>
      have hred : dedupMemos (f :: rest) (acc.map (fun m => m.id)) acc =
          dedupMemos rest (acc.map (fun m => m.id)) acc := by
        simp [dedupMemos, hf]
      have hfa : ∀ i, firstAdmitted (f :: rest) i = firstAdmitted rest i := by
        intro i; simp [firstAdmitted, List.findSome?_cons, hf]
      obtain ⟨ih1, ih2, ih3, ih4, ih5⟩ := ih acc hN hne
      rw [hred]
      refine ⟨ih1, ih2, ih3, fun m hm => ?_, ?_⟩
      · rcases ih4 m hm with h | ⟨h1, h2⟩
        · exact Or.inl h
        · exact Or.inr ⟨h1, by rw [hfa]; exact h2⟩
      · intro f' hf' m' hm' hid'
        rcases List.mem_cons.1 hf' with rfl | hf'
        · rw [hf] at hm'; exact Option.noConfusion hm'
        · exact ih5 f' hf' m' hm' hid'
    | some m =>
      by_cases hid : m.id = ""
      · have hred : dedupMemos (f :: rest) (acc.map (fun m => m.id)) acc =
            dedupMemos rest (acc.map (fun m => m.id)) acc := by
          simp [dedupMemos, hf, hid]
        have hfa : ∀ i, i ≠ "" → firstAdmitted (f :: rest) i = firstAdmitted rest i := by
          intro i hi
          simp only [firstAdmitted, List.findSome?_cons, hf]
          rw [if_neg (fun hc => hi (by rw [← hc]; exact hid))]
        obtain ⟨ih1, ih2, ih3, ih4, ih5⟩ := ih acc hN hne
        rw [hred]
        refine ⟨ih1, ih2, ih3, fun m' hm' => ?_, ?_⟩
        · rcases ih4 m' hm' with h | ⟨h1, h2⟩
          · exact Or.inl h
          · exact Or.inr ⟨h1, by rw [hfa m'.id (ih3 m' hm')]; exact h2⟩
        · intro f' hf' m' hm' hid'
          rcases List.mem_cons.1 hf' with rfl | hf'
          · rw [hf] at hm'
            obtain rfl := Option.some.inj hm'
            exact absurd hid hid'
          · exact ih5 f' hf' m' hm' hid'
      · by_cases hseen : m.id ∈ acc.map (fun m => m.id)
        · have hred : dedupMemos (f :: rest) (acc.map (fun m => m.id)) acc =
              dedupMemos rest (acc.map (fun m => m.id)) acc := by
            simp [dedupMemos, hf, hid, hseen]
          obtain ⟨ih1, ih2, ih3, ih4, ih5⟩ := ih acc hN hne
          rw [hred]
          refine ⟨ih1, ih2, ih3, fun m' hm' => ?_, ?_⟩
          · rcases ih4 m' hm' with h | ⟨h1, h2⟩
            · exact Or.inl h
            · refine Or.inr ⟨h1, ?_⟩
              have hmne : m.id ≠ m'.id := fun he => h1 (he ▸ hseen)
              simp only [firstAdmitted, List.findSome?_cons, hf]
              rw [if_neg (fun hc => hmne hc)]
              exact h2
          · intro f' hf' m' hm' hid'
            rcases List.mem_cons.1 hf' with rfl | hf'
            · rw [hf] at hm'
              obtain rfl := Option.some.inj hm'
              obtain ⟨a, ha, haid⟩ := List.mem_map.1 hseen
              exact ⟨a, ih2 a ha, haid⟩
            · exact ih5 f' hf' m' hm' hid'
        · have hred : dedupMemos (f :: rest) (acc.map (fun m => m.id)) acc =
              dedupMemos rest ((acc ++ [m]).map (fun m => m.id)) (acc ++ [m]) := by
            simp [dedupMemos, hf, hid, hseen]
          have hN' : ((acc ++ [m]).map (fun m => m.id)).Nodup := by
            rw [List.map_append]
            simp only [List.map_cons, List.map_nil]
            exact List.Nodup.append hN (by simp) (by
              intro x hx hy
              simp only [List.mem_singleton] at hy
              exact hseen (hy ▸ hx))
          have hne' : ∀ a ∈ acc ++ [m], a.id ≠ "" := by
            intro a ha
            rcases List.mem_append.1 ha with h | h
            · exact hne a h
            · simp only [List.mem_singleton] at h; subst h; exact hid
          obtain ⟨ih1, ih2, ih3, ih4, ih5⟩ := ih (acc ++ [m]) hN' hne'
          rw [hred]
          refine ⟨ih1, fun a ha => ih2 a (List.mem_append_left _ ha), ih3,
            fun m' hm' => ?_, ?_⟩
          · rcases ih4 m' hm' with h | ⟨h1, h2⟩
            · rcases List.mem_append.1 h with h | h
              · exact Or.inl h
              · simp only [List.mem_singleton] at h
                subst h
                refine Or.inr ⟨hseen, ?_⟩
                simp [firstAdmitted, List.findSome?_cons, hf]
            · have h1a : m'.id ∉ acc.map (fun m => m.id) := fun hc =>
                h1 (by rw [List.map_append]; exact List.mem_append_left _ hc)
              have h1m : m'.id ≠ m.id := fun hc =>
                h1 (by rw [List.map_append]; simp [hc])
              refine Or.inr ⟨h1a, ?_⟩
              simp only [firstAdmitted, List.findSome?_cons, hf]
              rw [if_neg (fun hc => h1m hc.symm)]
              exact h2
          · intro f' hf' m' hm' hid'
            rcases List.mem_cons.1 hf' with rfl | hf'
            · rw [hf] at hm'
              obtain rfl := Option.some.inj hm'
              exact ⟨m, ih2 m (List.mem_append_right _ (by simp)), rfl⟩
            · exact ih5 f' hf' m' hm' hid'

theorem dedupMemos_skip_parse_failure :
    ∀ (l1 : List ProcessedFile) (seen : List String) (acc : List Memo)
      (f : ProcessedFile) (l2 : List ProcessedFile), f.memo = none →
      dedupMemos (l1 ++ f :: l2) seen acc = dedupMemos (l1 ++ l2) seen acc := by
  intro l1
  induction l1 with
  | nil =>
    intro seen acc f l2 hf
    simp [dedupMemos, hf]
  | cons g gs ih =>
    intro seen acc f l2 hf
    rw [List.cons_append, List.cons_append, dedupMemos, dedupMemos]
    cases hg : g.memo with
    | none => exact ih seen acc f l2 hf
    | some m =>
      by_cases hid : m.id = ""
      · simp only [hid, ne_eq, not_true_eq_false, if_false]
        exact ih seen acc f l2 hf
      · simp only [ne_eq, hid, not_false_eq_true, if_true]
        by_cases hseen : m.id ∈ seen
        · rw [if_pos hseen, if_pos hseen]
          exact ih seen acc f l2 hf
        · rw [if_neg hseen, if_neg hseen]
          exact ih (seen ++ [m.id]) (acc ++ [m]) f l2 hf

/-- Claim C4: over one completed bulk-load enumeration, the memo list that
`loadMemos` produces has pairwise-distinct ids; every admitted memo is the
first parseable blob carrying its id (later duplicates never overwrite it);
every parseable blob with a truthy id is represented; and a blob that fails
to parse is skipped without affecting the result. -/
theorem loadMemos_dedup_firstWins (files : List ProcessedFile) :
    (((loadMemos { isLoading := false, hasLoaded := false } true (some files)).1.map
      (fun m => m.id)).Nodup) ∧
    (∀ m ∈ (loadMemos { isLoading := false, hasLoaded := false } true (some files)).1,
      firstAdmitted files m.id = some m) ∧
    (∀ f ∈ files, ∀ m', f.memo = some m' → m'.id ≠ "" →
      ∃ m'' ∈ (loadMemos { isLoading := false, hasLoaded := false } true (some files)).1,
        m''.id = m'.id) ∧
    (∀ (l1 l2 : List ProcessedFile) (f : ProcessedFile), f.memo = none →
      dedupMemos (l1 ++ f :: l2) [] [] = dedupMemos (l1 ++ l2) [] []) := by
  have hres : (loadMemos { isLoading := false, hasLoaded := false } true (some files)).1 =
      dedupMemos files [] [] := rfl
  obtain ⟨h1, _, _, h4, h5⟩ := dedupMemos_go files [] (by simp) (by simp)
  rw [hres]
  refine ⟨by simpa using h1, fun m hm => ?_, by simpa using h5,
    fun l1 l2 f hf => dedupMemos_skip_parse_failure l1 [] [] f l2 hf⟩
  rcases h4 m (by simpa using hm) with h | ⟨_, h⟩
  · exact absurd h (List.not_mem_nil m)
  · exact h

/-- Witness for C4: two parseable blobs with the same id "x" but different
contents — the first is kept, the second dropped; an unparseable blob in
between does not disturb the result. -/
theorem loadMemos_dedup_firstWins_witness :
    firstAdmitted
      [{ memo := some (wGeneralMemo "x" "첫째" 1) }, { memo := none },
        { memo := some (wGeneralMemo "x" "둘째" 1) }] "x" =
      some (wGeneralMemo "x" "첫째" 1) ∧
    (loadMemos { isLoading := false, hasLoaded := false } true
      (some [{ memo := some (wGeneralMemo "x" "첫째" 1) }, { memo := none },
        { memo := some (wGeneralMemo "x" "둘째" 1) }])).1 =
      [wGeneralMemo "x" "첫째" 1] := by
  constructor
  · have h := (loadMemos_dedup_firstWins
      [{ memo := some (wGeneralMemo "x" "첫째" 1) }, { memo := none },
        { memo := some (wGeneralMemo "x" "둘째" 1) }]).2.1
      (wGeneralMemo "x" "첫째" 1) (by decide)
    exact h
  · decide

/-! ## Claim C5 -/

/-- Claim C5: a bulk-load request arriving while the sync state is not
not-started (a load in progress, or already completed) returns immediately
with an empty item list and leaves both flags unchanged; hence a second
enumeration is never started while one is underway. -/
theorem loadMemos_duplicate_guard (flags : SyncFlags) (authenticated : Bool)
    (enumeration : Option (List ProcessedFile))
    (h : flags.isLoading = true ∨ flags.hasLoaded = true) :
    loadMemos flags authenticated enumeration = ([], flags) := by
  rcases h with h | h
  · simp [loadMemos, h]
  · cases hL : flags.isLoading
    · simp [loadMemos, hL, h]
    · simp [loadMemos, hL]

/-- Witness for C5: the guard at both non-not-started states. -/
theorem loadMemos_duplicate_guard_witness :
    loadMemos { isLoading := true, hasLoaded := false } true
        (some [{ memo := some (wGeneralMemo "x" "메모" 1) }]) =
      ([], { isLoading := true, hasLoaded := false }) ∧
    loadMemos { isLoading := false, hasLoaded := true } true
        (some [{ memo := some (wGeneralMemo "x" "메모" 1) }]) =
      ([], { isLoading := false, hasLoaded := true }) :=
  ⟨loadMemos_duplicate_guard { isLoading := true, hasLoaded := false } true
      (some [{ memo := some (wGeneralMemo "x" "메모" 1) }]) (Or.inl rfl),
    loadMemos_duplicate_guard { isLoading := false, hasLoaded := true } true
      (some [{ memo := some (wGeneralMemo "x" "메모" 1) }]) (Or.inr rfl)⟩

/-! ## Claim C6 -/

/-- Claim C6 as stated is refuted: after a hard enumeration error the
`finally` block clears `isLoading`, so the sync state is *not* left at
loading — it returns to not-started (both flags false).  At the concrete
not-started state, a hard error yields an empty result and a final state
whose `isLoading` flag is false. -/
theorem loadMemos_hard_error_counterexample :
    ¬ ((loadMemos { isLoading := false, hasLoaded := false } true none).2.isLoading = true) ∧
    (loadMemos { isLoading := false, hasLoaded := false } true none).1 = [] := by
  constructor
  · decide
  · decide

/-- Claim C6, amended: a hard enumeration error makes the failed `loadMemos`
call return an empty result, does not advance the state to loaded, and
clears the loading flag (the `finally` block), returning the sync state to
not-started — which is what makes a later retry possible. -/
theorem loadMemos_hard_error_amended (flags : SyncFlags) (authenticated : Bool)
    (h1 : flags.isLoading = false) (h2 : flags.hasLoaded = false) :
    loadMemos flags authenticated none =
      ([], { isLoading := false, hasLoaded := false }) := by
  cases hauth : authenticated <;> simp [loadMemos, h1, h2, hauth]

/-- Witness for the amended C6: the hard-error path from not-started. -/
theorem loadMemos_hard_error_amended_witness :
    loadMemos { isLoading := false, hasLoaded := false } true none =
      ([], { isLoading := false, hasLoaded := false }) :=
  loadMemos_hard_error_amended { isLoading := false, hasLoaded := false } true rfl rfl

/-! ## Claim C10 -/

/-- Claim C10: when the bulk load resolves to an empty list,
`loadMemosFromDrive` leaves the local memos unchanged (at most setting the
loaded flag); the local collection is replaced by the remote result only
when at least one memo came back, so an empty load never deletes local
items. -/
theorem loadMemosFromDrive_empty_preserves (memos : List Memo)
    (googleDriveLoaded : Bool) (memosFromDrive : List Memo) :
    (memosFromDrive = [] →
      (loadMemosFromDrive memos googleDriveLoaded memosFromDrive).1 = memos ∧
      (loadMemosFromDrive memos googleDriveLoaded memosFromDrive).2 = true) ∧
    (memosFromDrive ≠ [] →
      loadMemosFromDrive memos googleDriveLoaded memosFromDrive = (memosFromDrive, true)) := by
  constructor
  · intro hempty
    subst hempty
    cases googleDriveLoaded <;> simp [loadMemosFromDrive]
  · intro hne
    have hlen : memosFromDrive.length > 0 := List.length_pos.2 hne
    simp [loadMemosFromDrive, hlen]

/-- Witness for C10: an empty load keeps the single local memo (and marks
loaded); a non-empty load replaces local state. -/
theorem loadMemosFromDrive_empty_preserves_witness :
    (loadMemosFromDrive [wGeneralMemo "a" "메모" 1] false []).1 = [wGeneralMemo "a" "메모" 1] ∧
    loadMemosFromDrive [wGeneralMemo "a" "메모" 1] true [wGeneralMemo "b" "원격" 1] =
      ([wGeneralMemo "b" "원격" 1], true) :=
  ⟨((loadMemosFromDrive_empty_preserves [wGeneralMemo "a" "메모" 1] false []).1 rfl).1,
    (loadMemosFromDrive_empty_preserves [wGeneralMemo "a" "메모" 1] true
      [wGeneralMemo "b" "원격" 1]).2 (by decide)⟩

/-! ## Claim C8 -/

theorem makeTitleCandidate_injective (t : String) :
    Function.Injective (makeTitleCandidate t) := by
  intro a b h
  have hd := congrArg String.data h
  simp only [makeTitleCandidate, String.data_append, List.append_assoc] at hd
  replace hd := List.append_cancel_left hd
  replace hd := List.append_cancel_left hd
  replace hd := List.append_cancel_right hd
  have := congrArg decodeDigits hd
  rwa [decodeDigits_jsNatToString, decodeDigits_jsNatToString] at this

/-- Pigeonhole: among the candidate counters `2 .. memos.length + 2` some
candidate title collides with no existing freeform memo. -/
theorem exists_free_candidate (memos : List Memo) (t : String) :
    ∃ c, 2 ≤ c ∧ c < 2 + (memos.length + 1) ∧
      memos.any (fun m => m.mode == .general && m.title == makeTitleCandidate t c) = false := by
  by_contra hcon
  push_neg at hcon
  have hsub : (List.range' 2 (memos.length + 1)).map (makeTitleCandidate t) ⊆
      memos.map (fun m => m.title) := by
    intro x hx
    obtain ⟨c, hc, rfl⟩ := List.mem_map.1 hx
    have hcr := List.mem_range'_1.1 hc
    have hany : memos.any
        (fun m => m.mode == .general && m.title == makeTitleCandidate t c) = true :=
      Bool.ne_false_iff.1 (hcon c hcr.1 (by omega))
    obtain ⟨m, hm, hmp⟩ := List.any_eq_true.1 hany
    obtain ⟨_, htitle⟩ := Bool.and_eq_true_iff.1 hmp
    exact List.mem_map.2 ⟨m, hm, beq_iff_eq.1 htitle⟩
  have hnd : ((List.range' 2 (memos.length + 1)).map (makeTitleCandidate t)).Nodup :=
    (List.nodup_range' _ _).map (makeTitleCandidate_injective t)
  have hle := (List.subperm_of_subset hnd hsub).length_le
  rw [List.length_map, List.length_range', List.length_map] at hle
  omega

theorem addMemoTitleLoop_found (memos : List Memo) (t : String) : ∀ (fuel : Nat), ∀ (c : Nat),
    (∃ k, c ≤ k ∧ k < c + fuel ∧
      memos.any (fun m => m.mode == .general && m.title == makeTitleCandidate t k) = false) →
    ∃ N, addMemoTitleLoop memos t c fuel = makeTitleCandidate t N ∧ c ≤ N ∧
      memos.any (fun m => m.mode == .general && m.title == makeTitleCandidate t N) = false ∧
      ∀ M, c ≤ M → M < N →
        memos.any (fun m => m.mode == .general && m.title == makeTitleCandidate t M) = true := by
  intro fuel
  induction fuel with
  | zero => rintro c ⟨k, hk1, hk2, _⟩; omega
  | succ fuel ih =>
    rintro c ⟨k, hk1, hk2, hk3⟩
    rw [addMemoTitleLoop]
    by_cases hc : memos.any
        (fun m => m.mode == .general && m.title == makeTitleCandidate t c) = true
    · rw [if_pos hc]
      have hkc : k ≠ c := fun he => by
        rw [he] at hk3; rw [hk3] at hc; exact Bool.noConfusion hc
      obtain ⟨N, hN1, hN2, hN3, hN4⟩ := ih (c + 1) ⟨k, by omega, by omega, hk3⟩
      refine ⟨N, hN1, by omega, hN3, fun M hM1 hM2 => ?_⟩
      rcases Nat.eq_or_lt_of_le hM1 with hMc | hMc
      · rw [← hMc]; exact hc
      · exact hN4 M (by omega) hM2
    · rw [if_neg hc]
      have hcf : memos.any
          (fun m => m.mode == .general && m.title == makeTitleCandidate t c) = false := by
        revert hc
        cases memos.any (fun m => m.mode == .general && m.title == makeTitleCandidate t c) <;>
          simp
      exact ⟨c, rfl, le_rfl, hcf,
        fun M h1 h2 => absurd (lt_of_le_of_lt h1 h2) (lt_irrefl c)⟩

/-- Claim C8: `addMemo` always appends the memo to the local collection;
with no freeform-title collision the title is stored unchanged, and on a
collision the stored title is the candidate `` `title (N)` `` for the
smallest `N ≥ 2` whose candidate occurs on no existing freeform memo,
every smaller candidate being taken. -/
theorem addMemo_spec (memos : List Memo) (memo : Memo) :
    ((memo.mode == .general && memos.any
        (fun m => m.mode == .general && m.title == memo.title && m.id != memo.id)) = false →
      addMemo memos memo = memos ++ [memo]) ∧
    ((memo.mode == .general && memos.any
        (fun m => m.mode == .general && m.title == memo.title && m.id != memo.id)) = true →
      ∃ N, 2 ≤ N ∧
        addMemo memos memo =
          memos ++ [{ memo with title := makeTitleCandidate memo.title N }] ∧
        memos.any
          (fun m => m.mode == .general && m.title == makeTitleCandidate memo.title N) = false ∧
        ∀ M, 2 ≤ M → M < N →
          memos.any
            (fun m => m.mode == .general && m.title == makeTitleCandidate memo.title M) = true) := by
  constructor
  · intro h
    simp [addMemo, h]
  · intro h
    obtain ⟨c, hc1, hc2, hc3⟩ := exists_free_candidate memos memo.title
    obtain ⟨N, hN1, hN2, hN3, hN4⟩ :=
      addMemoTitleLoop_found memos memo.title (memos.length + 1) 2 ⟨c, hc1, hc2, hc3⟩
    refine ⟨N, hN2, ?_, hN3, fun M hM1 hM2 => hN4 M hM1 hM2⟩
    rw [show addMemo memos memo =
        memos ++ [{ memo with title := addMemoTitleLoop memos memo.title 2 (memos.length + 1) }]
      from by simp [addMemo, h], hN1]

/-- Witness for C8: adding a third "메모" while "메모" and "메모 (2)" exist
yields the smallest free suffix. -/
theorem addMemo_spec_witness :
    ∃ N, 2 ≤ N ∧
      addMemo [wGeneralMemo "a" "메모" 1, wGeneralMemo "b" (makeTitleCandidate "메모" 2) 1]
          (wGeneralMemo "c" "메모" 1) =
        [wGeneralMemo "a" "메모" 1, wGeneralMemo "b" (makeTitleCandidate "메모" 2) 1] ++
          [{ wGeneralMemo "c" "메모" 1 with title := makeTitleCandidate "메모" N }] ∧
      [wGeneralMemo "a" "메모" 1, wGeneralMemo "b" (makeTitleCandidate "메모" 2) 1].any
        (fun m => m.mode == .general && m.title == makeTitleCandidate "메모" N) = false ∧
      ∀ M, 2 ≤ M → M < N →
        [wGeneralMemo "a" "메모" 1, wGeneralMemo "b" (makeTitleCandidate "메모" 2) 1].any
          (fun m => m.mode == .general && m.title == makeTitleCandidate "메모" M) = true :=
  (addMemo_spec [wGeneralMemo "a" "메모" 1, wGeneralMemo "b" (makeTitleCandidate "메모" 2) 1]
    (wGeneralMemo "c" "메모" 1)).2 (by decide)

/-! ## Claim C9 -/

theorem jsTruthyS_some {o : Option String} (h : jsTruthyS o = true) :
    ∃ s, o = some s ∧ s ≠ "" := by
  cases o with
  | none => exact absurd h (by simp [jsTruthyS])
  | some s => exact ⟨s, rfl, by simpa [jsTruthyS] using h⟩

theorem jsTruthyN_some {o : Option Nat} (h : jsTruthyN o = true) :
    ∃ n, o = some n ∧ n ≠ 0 := by
  cases o with
  | none => exact absurd h (by simp [jsTruthyN])
  | some n => exact ⟨n, rfl, by simpa [jsTruthyN] using h⟩

/-- Claim C9: mode conversion is all-or-none.  When `canAutoConvert` fails
the batch is left byte-for-byte unchanged (and the scheme preference is not
applied); when it holds the whole batch is converted together with the new
scheme preference, and every resulting item satisfies the target scheme's
field constraints. -/
theorem modeChange_allOrNone (memos : List Memo) (toMode : UserMode)
    (preserved : PreservedAttributes) (years : List Nat) (defaultYear now : Nat) :
    ((checkAutoConvertPossible memos toMode preserved years defaultYear).2 = false →
      modeChangeAutoEffect memos toMode preserved years defaultYear now = (memos, false)) ∧
    ((checkAutoConvertPossible memos toMode preserved years defaultYear).2 = true →
      (modeChangeAutoEffect memos toMode preserved years defaultYear now).2 = true ∧
      (modeChangeAutoEffect memos toMode preserved years defaultYear now).1.length =
        memos.length ∧
      ∀ m' ∈ (modeChangeAutoEffect memos toMode preserved years defaultYear now).1,
        satisfiesModeConstraints toMode m') := by
  constructor
  · intro h
    simp [modeChangeAutoEffect, h]
  · intro h
    have heff : modeChangeAutoEffect memos toMode preserved years defaultYear now =
        (performModeChange memos
          (checkAutoConvertPossible memos toMode preserved years defaultYear).1 toMode now,
          true) := by
      simp [modeChangeAutoEffect, h]
    refine ⟨by rw [heff], by rw [heff]; simp [performModeChange], ?_⟩
    intro m' hm'
    rw [heff] at hm'
    simp only [performModeChange, List.mem_map] at hm'
    obtain ⟨m, hm, hconv⟩ := hm'
    have hall : ∀ x ∈ memos.map (buildModeChangeData toMode preserved years defaultYear),
        modeChangeItemValid toMode x = true := List.all_eq_true.1 h
    cases hfind : (checkAutoConvertPossible memos toMode preserved years defaultYear).1.find?
        (fun d => d.memoId == m.id) with
    | none =>
      exfalso
      have hrow : buildModeChangeData toMode preserved years defaultYear m ∈
          (checkAutoConvertPossible memos toMode preserved years defaultYear).1 :=
        List.mem_map.2 ⟨m, hm, rfl⟩
      have := List.find?_eq_none.1 hfind _ hrow
      apply this
      simp [buildModeChangeData]
    | some d =>
      rw [hfind] at hconv
      have hdmem : d ∈ memos.map (buildModeChangeData toMode preserved years defaultYear) :=
        List.mem_of_find?_eq_some hfind
      have hvalid : modeChangeItemValid toMode d = true := hall d hdmem
      subst hconv
      cases toMode with
      | general =>
        simp only [modeChangeItemValid, Bool.and_eq_true_iff, decide_eq_true_eq] at hvalid
        obtain ⟨s, hds, hsne⟩ := jsTruthyS_some hvalid.1
        have ht : jsOr d.title d.currentTitle = s := by simp [jsOr, hds, hsne]
        have ht0 : jsOr d.title "" = s := by simp [jsOr, hds, hsne]
        refine ⟨rfl, by simp [convertMemo, ht, hsne], ?_⟩
        show (jsTrim (convertMemo .general now m d).title).length > 0
        have : (convertMemo .general now m d).title = s := by simp [convertMemo, ht]
        rw [this]
        have := hvalid.2
        rwa [ht0] at this
      | student =>
        simp only [modeChangeItemValid, Bool.and_eq_true_iff, decide_eq_true_eq] at hvalid
        obtain ⟨⟨hg, hs⟩, htrim⟩ := hvalid
        obtain ⟨g, hdg, hgne⟩ := jsTruthyS_some hg
        obtain ⟨s, hds, hsne⟩ := jsTruthyS_some hs
        have hs0 : jsOr d.subject "" = s := by simp [jsOr, hds, hsne]
        refine ⟨rfl, by simp [convertMemo, showOptString, hdg, hgne], ?_, ?_⟩
        · show (convertMemo .student now m d).subject ≠ ""
          simp [convertMemo, showOptString, hds, hsne]
        · show (jsTrim (convertMemo .student now m d).subject).length > 0
          have : (convertMemo .student now m d).subject = s := by
            simp [convertMemo, showOptString, hds]
          rw [this]
          rwa [hs0] at htrim
      | teacher =>
        simp only [modeChangeItemValid, Bool.and_eq_true_iff, decide_eq_true_eq] at hvalid
        obtain ⟨⟨⟨⟨⟨hy, hg⟩, hs⟩, hstrim⟩, hst⟩, hsttrim⟩ := hvalid
        obtain ⟨y, hdy, hyne⟩ := jsTruthyN_some hy
        obtain ⟨g, hdg, hgne⟩ := jsTruthyS_some hg
        obtain ⟨s, hds, hsne⟩ := jsTruthyS_some hs
        obtain ⟨st, hdst, hstne⟩ := jsTruthyS_some hst
        have hs0 : jsOr d.subject "" = s := by simp [jsOr, hds, hsne]
        have hst0 : jsOr d.student "" = st := by simp [jsOr, hdst, hstne]
        refine ⟨rfl, by simp [convertMemo, hdy, hyne], by simp [convertMemo, showOptString, hdg, hgne],
          by simp [convertMemo, showOptString, hds, hsne], ?_,
          by simp [convertMemo, showOptString, hdst, hstne], ?_⟩
        · show (jsTrim (convertMemo .teacher now m d).subject).length > 0
          have : (convertMemo .teacher now m d).subject = s := by
            simp [convertMemo, showOptString, hds]
          rw [this]
          rwa [hs0] at hstrim
        · show (jsTrim (convertMemo .teacher now m d).student).length > 0
          have : (convertMemo .teacher now m d).student = st := by
            simp [convertMemo, showOptString, hdst]
          rw [this]
          rwa [hst0] at hsttrim

/-- Witness for C9: a cohort memo auto-converts to the cohort scheme (its
internal name parses), but the conversion of the same memo to the roster
scheme aborts, leaving the batch untouched. -/
theorem modeChange_allOrNone_witness :
    modeChangeAutoEffect [wStudentMemo "a" 1] .teacher {} [2024] 2024 7 =
      ([wStudentMemo "a" 1], false) ∧
    (modeChangeAutoEffect [wStudentMemo "a" 1] .student {} [2024] 2024 7).2 = true := by
  constructor
  · exact (modeChange_allOrNone [wStudentMemo "a" 1] .teacher {} [2024] 2024 7).1 (by decide)
  · exact ((modeChange_allOrNone [wStudentMemo "a" 1] .student {} [2024] 2024 7).2
      (by decide)).1
